import Mathlib

/-!
# Disk creation and resize steps of the QEMU builder

A shallow embedding of `builder/qemu/step_create_disk.go` and
`builder/qemu/step_resize_disk.go`.

Conventions of the embedding:

* a Go `string` is a Lean `String`; the only byte-level operations the code
  performs are searches for the ASCII bytes `/` and `.`, slicing at those
  positions and concatenation, which agree with the same operations on
  characters of a well-formed UTF-8 string;
* a Go `[]string` is a `List String` (a nil slice and an empty slice are both `[]`);
* a Go `error` is an `Option String`: `none` is `nil`, `some m` is an error whose
  `Error()` text is `m`;
* the driver is an object with hidden mutable state: its two methods are state
  transformers over a state type `σ`, and every call made on it is recorded in
  the `calls` field of `World`;
* the loop index of `range` is a `Nat`.
-/

namespace Qemu

/-! ## Go standard library: `path/filepath` (Unix), `fmt`, `errors` -/

/-- Go `os.IsPathSeparator` on Unix: the only separator is `/`. -/
def isPathSeparator (c : Char) : Bool := c == '/'

/-- The loop of `filepath.Ext`: scan from the last byte towards the first, stopping at a
separator; at the first dot return the suffix starting there. The first argument is the
part of the path not scanned yet, reversed; the second is the suffix already passed. -/
def extLoop : List Char → List Char → List Char
  | [], _ => []
  | c :: rest, suffix =>
    if isPathSeparator c then []
    else if c = '.' then c :: suffix
    else extLoop rest (c :: suffix)

/-- Go `filepath.Ext`: the suffix beginning at the final dot in the final element of
`path`; empty if there is no dot. -/
def Ext (path : String) : String := ⟨extLoop path.data.reverse []⟩

/-- Does the path remaining to read end here or continue with a separator
(`r == n || os.IsPathSeparator(path[r])`)? -/
def endOrSep : List Char → Bool
  | [] => true
  | c :: _ => isPathSeparator c

/-- The inner loop of the `..` case of `filepath.Clean`: `out.w--` followed by
`for out.w > dotdot && !os.IsPathSeparator(out.index(out.w)) { out.w-- }`.
The buffer is held reversed (last written byte first). -/
def cleanBacktrack (dotdot : Nat) : List Char → List Char
  | [] => []
  | c :: out => if dotdot < out.length ∧ isPathSeparator c = false then cleanBacktrack dotdot out
                else out

/-- The main loop `for r < n` of `filepath.Clean`. `rooted` is fixed; the arguments are a
fuel bound, the unread part of the path (`path[r:]`), the output buffer reversed
(`out.w` is its length) and `dotdot`. Every iteration reads at least one byte, so a fuel
of `n + 1` is never exhausted. -/
def cleanLoop (rooted : Bool) : Nat → List Char → List Char → Nat → List Char
  | 0, _, out, _ => out
  | _ + 1, [], out, _ => out
  | fuel + 1, c :: rest, out, dotdot =>
    if isPathSeparator c then
      -- empty path element
      cleanLoop rooted fuel rest out dotdot
    else if c = '.' ∧ endOrSep rest = true then
      -- . element
      cleanLoop rooted fuel rest out dotdot
    else if c = '.' ∧ rest.head? = some '.' ∧ endOrSep rest.tail = true then
      -- .. element: remove to last separator
      if dotdot < out.length then
        cleanLoop rooted fuel rest.tail (cleanBacktrack dotdot out) dotdot
      else if rooted = false then
        let out1 := if 0 < out.length then '/' :: out else out
        let out2 := '.' :: '.' :: out1
        cleanLoop rooted fuel rest.tail out2 out2.length
      else
        cleanLoop rooted fuel rest.tail out dotdot
    else
      -- real path element: add slash if needed, then copy the element
      let out1 :=
        if (rooted = true ∧ out.length ≠ 1) ∨ (rooted = false ∧ out.length ≠ 0) then '/' :: out
        else out
      let elem := (c :: rest).takeWhile (fun x => !isPathSeparator x)
      cleanLoop rooted fuel ((c :: rest).dropWhile (fun x => !isPathSeparator x))
        (elem.reverse ++ out1) dotdot

/-- Go `filepath.Clean` on Unix (no volume name; `FromSlash` is the identity). -/
def Clean (path : String) : String :=
  match path.data with
  | [] => "."
  | c :: rest =>
    let rooted := isPathSeparator c
    let out :=
      if rooted then cleanLoop rooted (rest.length + 1) rest ['/'] 1
      else cleanLoop rooted (rest.length + 2) (c :: rest) [] 0
    -- Turn empty string into "."
    if out.length = 0 then "." else ⟨out.reverse⟩

/-- Go `filepath.Join` for two elements on Unix: empty leading elements are skipped, the
rest is joined with `/` and cleaned; the result is empty when every element is. -/
def Join (a b : String) : String :=
  if a ≠ "" then Clean (a ++ "/" ++ b)
  else if b ≠ "" then Clean b
  else ""

/-- Go `fmt.Sprintf("%s-%d", name, index)` for a non-negative `index`. -/
def sprintfNameIndex (name : String) (index : Nat) : String :=
  name ++ "-" ++ toString index

/-- Go slice expression `x[1:]` on a string of length at least one. -/
def sliceFrom1 (x : String) : String := ⟨x.data.drop 1⟩

/-- Go `error`: `none` is `nil`. -/
abbrev GoError := Option String

/-- Go `errors.New`. -/
def errorsNew (msg : String) : GoError := some msg

/-! ## Collaborators declared outside the two step files -/

/-- Modelled from the spec: the `QemuImgArgs` configuration type is declared outside the
step files; the steps read its three ordered lists of extra `qemu-img` tokens, `Convert`,
`Create` and `Resize`. -/
structure QemuImgArgs where
  Convert : List String := []
  Create : List String := []
  Resize : List String := []
deriving DecidableEq, Repr

/-- One call made on the driver, with its arguments. -/
inductive DriverCall where
  | QemuImg (args : List String)
  | Copy (src dst : String)
deriving DecidableEq, Repr

/-- Modelled from the spec: the `Driver` interface is declared outside the step files; the
steps use its two methods `QemuImg(args ...string) error` and `Copy(src, dst string) error`.
Each method may read and change the hidden state `σ` of the driver object. -/
structure Driver (σ : Type) where
  QemuImg : List String → σ → GoError × σ
  Copy : String → String → σ → GoError × σ

/-- One call made on the `packersdk.Ui` object. -/
inductive UiCall where
  | Say (msg : String)
  | Message (msg : String)
  | Error (msg : String)
deriving DecidableEq, Repr

/-- Everything outside the step that it acts on: the hidden state of the driver object, the
record of the calls made on the driver, the output sent to the ui and the lines sent to the
process log, all in the order made. -/
structure World (σ : Type) where
  driverState : σ
  calls : List DriverCall := []
  ui : List UiCall := []
  log : List String := []

/-- `driver.QemuImg(command...)`: run the method on the hidden state and record the call. -/
def World.callQemuImg {σ : Type} (w : World σ) (driver : Driver σ) (command : List String) :
    GoError × World σ :=
  let r := driver.QemuImg command w.driverState
  (r.1, { w with driverState := r.2, calls := w.calls ++ [DriverCall.QemuImg command] })

/-- `driver.Copy(src, dst)`: run the method on the hidden state and record the call. -/
def World.callCopy {σ : Type} (w : World σ) (driver : Driver σ) (src dst : String) :
    GoError × World σ :=
  let r := driver.Copy src dst w.driverState
  (r.1, { w with driverState := r.2, calls := w.calls ++ [DriverCall.Copy src dst] })

/-- A call `ui.Say`, `ui.Message` or `ui.Error`. -/
def World.uiCall {σ : Type} (w : World σ) (c : UiCall) : World σ :=
  { w with ui := w.ui ++ [c] }

/-- A call `log.Printf` with the formatted line. -/
def World.logPrintf {σ : Type} (w : World σ) (line : String) : World σ :=
  { w with log := w.log ++ [line] }

/-- The `multistep.StepAction` values the steps return. -/
inductive StepAction where
  | ActionContinue
  | ActionHalt
deriving DecidableEq, Repr

/-- The keys of the `multistep.StateBag` the two steps read or write. `driver` and
`iso_path` are read with an unchecked type assertion and so must be present; the ui object
under `"ui"` is represented by its output in `World`. `error` and `qemu_disk_paths` are
`none` while the key is not set. -/
structure StateBag (σ : Type) where
  driver : Driver σ
  iso_path : String
  qemu_disk_paths : Option (List String) := none
  error : Option String := none

/-! ## `step_create_disk.go` -/

/-- Go `type Disk struct`. -/
structure Disk where
  FullPath : String := ""
  Size : String := ""
  Source : String := ""
  Format : String := ""
deriving DecidableEq, Repr

/-- Go `type ActionDisk struct`. -/
structure ActionDisk (σ : Type) where
  Disk : Disk
  QemuImgArgs : QemuImgArgs
  Driver : Driver σ
  ActionType : String

/-- Go `func (d *ActionDisk) BuildCreateCommand() []string`. -/
def ActionDisk.BuildCreateCommand {σ : Type} (d : ActionDisk σ) : List String :=
  let command := ["create", "-f", d.Disk.Format]
  -- add user-provided convert args
  let command := command ++ d.QemuImgArgs.Create
  -- add target path and size.
  let command := command ++ [d.Disk.FullPath, d.Disk.Size]
  command

/-- Go `func (d *ActionDisk) BuildConvertCommand() []string`. -/
def ActionDisk.BuildConvertCommand {σ : Type} (d : ActionDisk σ) : List String :=
  let command := ["convert", "-O", d.Disk.Format]
  -- add user-provided convert args
  let command := command ++ d.QemuImgArgs.Convert
  -- add target path and size.
  let command := command ++ [d.Disk.Source, d.Disk.FullPath]
  command

/-- Go `func (d *ActionDisk) BuildBackingCommand() []string`. -/
def ActionDisk.BuildBackingCommand {σ : Type} (d : ActionDisk σ) : List String :=
  let command := ["create", "-f", d.Disk.Format]
  -- add user-provided convert args
  let command := command ++ d.QemuImgArgs.Create
  -- add target path and backing option.
  let command := command ++ ["-b", d.Disk.Source, d.Disk.FullPath]
  command

/-- Go `func (d *ActionDisk) RunCopyCommand() error`. -/
def ActionDisk.RunCopyCommand {σ : Type} (d : ActionDisk σ) (w : World σ) : GoError × World σ :=
  w.callCopy d.Driver d.Disk.Source d.Disk.FullPath

/-- Go `func (d *ActionDisk) RunCommand() error`. -/
def ActionDisk.RunCommand {σ : Type} (d : ActionDisk σ) (w : World σ) : GoError × World σ :=
  if d.ActionType = "copy" then d.RunCopyCommand w
  else if d.ActionType = "create" then w.callQemuImg d.Driver d.BuildCreateCommand
  else if d.ActionType = "convert" then w.callQemuImg d.Driver d.BuildConvertCommand
  else if d.ActionType = "backing" then w.callQemuImg d.Driver d.BuildBackingCommand
  else (errorsNew "unknown action", w)

/-- Go `type stepCreateDisk struct`. -/
structure stepCreateDisk where
  AdditionalDiskSize : List String := []
  DiskImage : Bool := false
  DisksOrder : List String := []
  DiskSize : String := ""
  Format : String := ""
  OutputDir : String := ""
  UseBackingFile : Bool := false
  VMName : String := ""
  QemuImgArgs : QemuImgArgs := {}
  ManyDisks : Bool := false
deriving DecidableEq, Repr

/-- Go `func (s *stepCreateDisk) CopyAction(disk Disk, driver Driver) ActionDisk`. -/
def stepCreateDisk.CopyAction {σ : Type} (s : stepCreateDisk) (disk : Disk) (driver : Driver σ) :
    ActionDisk σ :=
  ⟨disk, s.QemuImgArgs, driver, "copy"⟩

/-- Go `func (s *stepCreateDisk) convertAction(disk Disk, driver Driver, ui packersdk.Ui)
ActionDisk`; the ui output goes to the world. -/
def stepCreateDisk.convertAction {σ : Type} (s : stepCreateDisk) (disk : Disk)
    (driver : Driver σ) (w : World σ) : ActionDisk σ × World σ :=
  let ext := Ext disk.Source
  if 1 ≤ ext.length ∧ sliceFrom1 ext = s.Format ∧ s.QemuImgArgs.Convert.length = 0 then
    let w := w.uiCall (UiCall.Message ("File extension already matches desired output format. " ++
      "Skipping qemu-img convert step"))
    (s.CopyAction disk driver, w)
  else
    (⟨disk, s.QemuImgArgs, driver, "convert"⟩, w)

/-- Go `func (s *stepCreateDisk) createAction(disk Disk, driver Driver) ActionDisk`. -/
def stepCreateDisk.createAction {σ : Type} (s : stepCreateDisk) (disk : Disk)
    (driver : Driver σ) : ActionDisk σ :=
  ⟨disk, s.QemuImgArgs, driver, "create"⟩

/-- Go `func (s *stepCreateDisk) backingAction(disk Disk, driver Driver) ActionDisk`. -/
def stepCreateDisk.backingAction {σ : Type} (s : stepCreateDisk) (disk : Disk)
    (driver : Driver σ) : ActionDisk σ :=
  ⟨disk, s.QemuImgArgs, driver, "backing"⟩

/-- Go `func (s *stepCreateDisk) get_target_path(name string, index int) string`. -/
def stepCreateDisk.get_target_path (s : stepCreateDisk) (name : String) (index : Nat) : String :=
  Join s.OutputDir (sprintfNameIndex name index)

/-- The body of the first loop of `stepCreateDisk.Run` (lines 155 to 167) for index `i` and
element `d`: the action appended to `actionDisks`, and the world after the ui call that
`convertAction` may make. -/
def stepCreateDisk.sourceAction {σ : Type} (s : stepCreateDisk) (name source_dir : String)
    (driver : Driver σ) (i : Nat) (d : String) (w : World σ) : ActionDisk σ × World σ :=
  let disk : Disk :=
    { FullPath := s.get_target_path name i
      Source := Join source_dir d
      Format := s.Format
      Size := s.DiskSize }
  if s.DiskImage = true ∧ s.UseBackingFile = true then
    (s.backingAction disk driver, w)
  else if s.DiskImage = true ∧ s.UseBackingFile = false then
    s.convertAction disk driver w
  else
    (s.createAction disk driver, w)

/-- The first loop of `stepCreateDisk.Run`, `for i, d := range disksOrder`: the arguments
after `driver` are the index `i`, the elements still to visit, the slice `actionDisks`
built so far and the world. -/
def stepCreateDisk.sourceLoop {σ : Type} (s : stepCreateDisk) (name source_dir : String)
    (driver : Driver σ) : Nat → List String → List (ActionDisk σ) → World σ →
    List (ActionDisk σ) × World σ
  | _, [], actionDisks, w => (actionDisks, w)
  | i, d :: ds, actionDisks, w =>
    let r := s.sourceAction name source_dir driver i d w
    s.sourceLoop name source_dir driver (i + 1) ds (actionDisks ++ [r.1]) r.2

/-- The second loop of `stepCreateDisk.Run`, `for i, diskSize := range s.AdditionalDiskSize`:
the arguments after `driver` are the index `i`, the sizes still to visit and the slice
`actionDisks` built so far. -/
def stepCreateDisk.additionalLoop {σ : Type} (s : stepCreateDisk) (name : String)
    (nbBaseDisks : Nat) (driver : Driver σ) : Nat → List String → List (ActionDisk σ) →
    List (ActionDisk σ)
  | _, [], actionDisks => actionDisks
  | i, diskSize :: sizes, actionDisks =>
    let action := s.createAction
      { FullPath := s.get_target_path name (nbBaseDisks + i)
        Size := diskSize
        Format := s.Format } driver
    s.additionalLoop name nbBaseDisks driver (i + 1) sizes (actionDisks ++ [action])

/-- The slice `disksOrder` that the first loop of `stepCreateDisk.Run` ranges over (lines 143
and 150 to 153): `s.DisksOrder` when `s.ManyDisks`, otherwise the one element `isoPath`. -/
def stepCreateDisk.disksOrder (s : stepCreateDisk) (isoPath : String) : List String :=
  if s.ManyDisks then s.DisksOrder else [isoPath]

/-- The variable `source_dir` of `stepCreateDisk.Run` (lines 144 and 150 to 153): `isoPath`
when `s.ManyDisks`, otherwise empty. -/
def stepCreateDisk.source_dir (s : stepCreateDisk) (isoPath : String) : String :=
  if s.ManyDisks then isoPath else ""

/-- Lines 139 to 169 of `stepCreateDisk.Run`: the slice `actionDisks` after the loop over
the source disks, and the world after the ui calls made so far. -/
def stepCreateDisk.sourceActions {σ : Type} (s : stepCreateDisk) (state : StateBag σ)
    (w : World σ) : List (ActionDisk σ) × World σ :=
  let driver := state.driver
  let name := s.VMName
  let isoPath := state.iso_path
  let w := w.uiCall (UiCall.Say "Creating required virtual machine disks")
  s.sourceLoop name (s.source_dir isoPath) driver 0 (s.disksOrder isoPath) [] w

/-- Lines 139 to 183 of `stepCreateDisk.Run`: the slice `actionDisks` after the additional
disks are appended. -/
def stepCreateDisk.planActions {σ : Type} (s : stepCreateDisk) (state : StateBag σ)
    (w : World σ) : List (ActionDisk σ) × World σ :=
  let r := s.sourceActions state w
  let actionDisks := r.1
  -- Additional disks
  let nbBaseDisks := actionDisks.length
  let actionDisks :=
    if 0 < s.AdditionalDiskSize.length then
      s.additionalLoop s.VMName nbBaseDisks state.driver 0 s.AdditionalDiskSize actionDisks
    else actionDisks
  (actionDisks, r.2)

/-- The third loop of `stepCreateDisk.Run`, `for _, a := range actionDisks`, with the two
statements that follow it. The arguments are the actions still to run, the slice
`diskFullPaths` built so far, the state bag and the world. A failing action returns
`ActionHalt` from inside the loop; `qemu_disk_paths` is put only after the loop. -/
def stepCreateDisk.createLoop {σ : Type} : List (ActionDisk σ) → List String → StateBag σ →
    World σ → StepAction × StateBag σ × World σ
  | [], diskFullPaths, state, w =>
    -- Stash the disk paths so we can retrieve later
    (StepAction.ActionContinue, { state with qemu_disk_paths := some diskFullPaths }, w)
  | a :: rest, diskFullPaths, state, w =>
    let w := w.logPrintf ("[INFO] Creating/Copy disk with Path: " ++ a.Disk.FullPath ++
      " and Size: " ++ a.Disk.Size)
    let diskFullPaths := diskFullPaths ++ [a.Disk.FullPath]
    match a.RunCommand w with
    | (some err, w) =>
      let err := "error creating hard drive: " ++ err
      (StepAction.ActionHalt, { state with error := some err }, w.uiCall (UiCall.Error err))
    | (none, w) => stepCreateDisk.createLoop rest diskFullPaths state w

/-- Go `func (s *stepCreateDisk) Run(ctx context.Context, state multistep.StateBag)
multistep.StepAction`, returning also the state bag and the world it leaves. -/
def stepCreateDisk.Run {σ : Type} (s : stepCreateDisk) (state : StateBag σ) (w : World σ) :
    StepAction × StateBag σ × World σ :=
  let r := s.planActions state w
  -- Create all required disks
  stepCreateDisk.createLoop r.1 [] state r.2

/-! ## `step_resize_disk.go` -/

/-- Go `type stepResizeDisk struct`. -/
structure stepResizeDisk where
  DiskImage : Bool := false
  Format : String := ""
  SkipResizeDisk : Bool := false
  DiskSize : String := ""
  QemuImgArgs : QemuImgArgs := {}
deriving DecidableEq, Repr

/-- Go `func (s *stepResizeDisk) buildResizeCommand(path string) []string`. -/
def stepResizeDisk.buildResizeCommand (s : stepResizeDisk) (path : String) : List String :=
  let command := ["resize", "-f", s.Format]
  -- add user-provided convert args
  let command := command ++ s.QemuImgArgs.Resize
  -- Add file and size
  let command := command ++ [path, s.DiskSize]
  command

/-- The loop of `stepResizeDisk.Run`, `for _, path := range diskFullPaths`, with the
`return` that follows it. -/
def stepResizeDisk.resizeLoop {σ : Type} (s : stepResizeDisk) (driver : Driver σ) :
    List String → StateBag σ → World σ → StepAction × StateBag σ × World σ
  | [], state, w => (StepAction.ActionContinue, state, w)
  | path :: rest, state, w =>
    let command := s.buildResizeCommand path
    let w := w.uiCall (UiCall.Say ("Resizing hard drive " ++ path ++ " ..."))
    match w.callQemuImg driver command with
    | (some err, w) =>
      let err := "Error creating hard drive: " ++ err
      (StepAction.ActionHalt, { state with error := some err }, w.uiCall (UiCall.Error err))
    | (none, w) => s.resizeLoop driver rest state w

/-- Go `func (s *stepResizeDisk) Run(ctx context.Context, state multistep.StateBag)
multistep.StepAction`, returning also the state bag and the world it leaves. The result is
`none` when the unchecked type assertion on `state.Get("qemu_disk_paths")` fails because
the key is not set. -/
def stepResizeDisk.Run {σ : Type} (s : stepResizeDisk) (state : StateBag σ) (w : World σ) :
    Option (StepAction × StateBag σ × World σ) :=
  let driver := state.driver
  match state.qemu_disk_paths with
  | none => none
  | some diskFullPaths =>
    if s.DiskImage = false ∨ s.SkipResizeDisk = true then
      some (StepAction.ActionContinue, state, w)
    else
      some (s.resizeLoop driver diskFullPaths state w)

/-! ## The driver calls of a run -/

/-- The method of the driver that a recorded call names, applied to the hidden state of
the driver. -/
def Driver.issue {σ : Type} (driver : Driver σ) (c : DriverCall) (st : σ) : GoError × σ :=
  match c with
  | DriverCall.QemuImg args => driver.QemuImg args st
  | DriverCall.Copy src dst => driver.Copy src dst st

/-- The results of the calls `cs` made one after the other on a driver whose hidden state
is `st` at the start, whatever each call returns. -/
def Driver.results {σ : Type} (driver : Driver σ) : List DriverCall → σ → List GoError
  | [], _ => []
  | c :: cs, st => (driver.issue c st).1 :: Driver.results driver cs (driver.issue c st).2

/-- The driver call that `RunCommand` makes for an action, read off its four branches;
`none` for an action type that `RunCommand` does not know. -/
def ActionDisk.driverCall {σ : Type} (d : ActionDisk σ) : Option DriverCall :=
  if d.ActionType = "copy" then some (DriverCall.Copy d.Disk.Source d.Disk.FullPath)
  else if d.ActionType = "create" then some (DriverCall.QemuImg d.BuildCreateCommand)
  else if d.ActionType = "convert" then some (DriverCall.QemuImg d.BuildConvertCommand)
  else if d.ActionType = "backing" then some (DriverCall.QemuImg d.BuildBackingCommand)
  else none

/-- The driver calls of the planned actions of `stepCreateDisk.Run`, in plan order. -/
def stepCreateDisk.planCalls {σ : Type} (s : stepCreateDisk) (state : StateBag σ)
    (w : World σ) : List DriverCall :=
  (s.planActions state w).1.filterMap ActionDisk.driverCall

/-- The driver calls of the loop of `stepResizeDisk.Run` over the paths given, in order. -/
def stepResizeDisk.resizeCalls (s : stepResizeDisk) (paths : List String) : List DriverCall :=
  paths.map (fun p => DriverCall.QemuImg (s.buildResizeCommand p))

/-! ## Drivers and inputs used to run the steps on concrete values -/

/-- A driver without state whose calls all succeed. -/
def okDriver : Driver Unit where
  QemuImg := fun _ u => (none, u)
  Copy := fun _ _ u => (none, u)

/-- A driver that counts its calls and fails, with the text `boom`, exactly the call
number `k` (counted from zero over both methods). -/
def failAt (k : Nat) : Driver Nat where
  QemuImg := fun _ n => (if n = k then some "boom" else none, n + 1)
  Copy := fun _ _ n => (if n = k then some "boom" else none, n + 1)

/-- The state bag of a run over `okDriver` with the given `iso_path`. -/
def okState (isoPath : String) : StateBag Unit :=
  { driver := okDriver, iso_path := isoPath }

/-- The world before a run over `okDriver`. -/
def okWorld : World Unit := { driverState := () }

/-- A step that starts from a disk image without a backing file, with two additional
disks (third case of `Test_StepCreateCalled`). -/
def imageStep : stepCreateDisk :=
  { Format := "qcow2", DiskImage := true, DiskSize := "4M", VMName := "target",
    AdditionalDiskSize := ["3M", "8M"] }

/-- A step over several extracted source disks (ninth case of `Test_StepCreateCalled`). -/
def manyDisksStep : stepCreateDisk :=
  { Format := "qcow2", DiskImage := true, DiskSize := "4M", VMName := "target",
    AdditionalDiskSize := ["3M", "8M"], ManyDisks := true,
    DisksOrder := ["source0.qcow2.extract", "source1.qcow2.extract", "source2.qcow2.extract"] }

/-- A step that creates a backed disk and two additional disks (fifth case of
`Test_StepCreateCalled`). -/
def backingStep : stepCreateDisk :=
  { Format := "qcow2", DiskImage := true, DiskSize := "1M", VMName := "target",
    UseBackingFile := true, AdditionalDiskSize := ["3M", "8M"] }

/-- A step that creates an empty disk (second case of `Test_StepCreateCalled`). -/
def rawStep : stepCreateDisk :=
  { Format := "raw", DiskImage := false, DiskSize := "4M", VMName := "target" }

/-- A step whose machine name is written with a leading `./`. -/
def dotSlashStep : stepCreateDisk :=
  { Format := "raw", DiskSize := "4M", VMName := "./vm" }

/-- A step that starts from a disk image, with an empty `Format`. -/
def noExtensionStep : stepCreateDisk :=
  { Format := "", DiskImage := true, DiskSize := "4M", VMName := "target" }

/-- The disk of the action tables of `Test_buildCreateCommand`. -/
def testDisk : Disk :=
  { FullPath := "target.qcow2", Size := "1234M", Source := "source.qcow2", Format := "qcow2" }

/-- An action of the given kind on `testDisk` over the driver `failAt k`. -/
def testAction (k : Nat) (kind : String) : ActionDisk Nat :=
  { Disk := testDisk, QemuImgArgs := { Create := ["-foo", "-bar"] }, Driver := failAt k,
    ActionType := kind }


/-- The state bag of a run over `failAt k` with the given `iso_path`. -/
def failState (k : Nat) (isoPath : String) : StateBag Nat :=
  { driver := failAt k, iso_path := isoPath }

/-- The world before a run over `failAt k`: no call counted yet. -/
def failWorld : World Nat := { driverState := 0 }

/-- A resize step that is not skipped. -/
def resizeStep : stepResizeDisk :=
  { DiskImage := true, Format := "qcow2", DiskSize := "10G", QemuImgArgs := { Resize := ["-foo"] } }

/-- A step whose output directory and machine name are not clean paths, with two
additional disks. -/
def cleanedStep : stepCreateDisk :=
  { Format := "raw", DiskSize := "4M", OutputDir := "/out//", VMName := "x/../vm",
    AdditionalDiskSize := ["3M", "8M"] }

/-- A step in many-disks mode with no source disk and no additional disk. -/
def emptyStep : stepCreateDisk :=
  { Format := "qcow2", DiskImage := true, DiskSize := "4M", VMName := "target",
    ManyDisks := true }

/-! ## Facts about the library functions -/

/-- The loop of `filepath.Ext` returns nothing or a suffix that begins with a dot. -/
theorem extLoop_nil_or_dot (l : List Char) :
    ∀ suffix : List Char, extLoop l suffix = [] ∨ ∃ t, extLoop l suffix = '.' :: t := by
  induction l with
  | nil => intro suffix; exact Or.inl rfl
  | cons c rest ih =>
    intro suffix
    simp only [extLoop]
    split
    · exact Or.inl rfl
    · split
      · rename_i h; exact Or.inr ⟨suffix, by rw [h]⟩
      · exact ih _

/-- The test of `convertAction` on the extension, `len(ext) >= 1 && ext[1:] == format`, holds
exactly when the extension is a dot followed by the format. -/
theorem ext_test_iff (path format : String) :
    (1 ≤ (Ext path).length ∧ sliceFrom1 (Ext path) = format) ↔ Ext path = "." ++ format := by
  rcases extLoop_nil_or_dot path.data.reverse [] with h | ⟨t, h⟩
  · have hE : Ext path = "" := by simp [Ext, h]
    rw [hE]
    constructor
    · rintro ⟨h1, _⟩; simp at h1
    · intro h2
      have := congrArg String.data h2
      simp [String.data_append] at this
  · have hE : Ext path = ⟨'.' :: t⟩ := by simp [Ext, h]
    rw [hE]
    simp [sliceFrom1, String.ext_iff, String.data_append, String.length]

/-- No decimal digit is the separator. -/
theorem digitChar_ne_slash : ∀ k < 10, Nat.digitChar k ≠ '/' := by
  decide

/-- The decimal digits of a number contain no separator. -/
theorem toDigitsCore_ne_slash (f : Nat) :
    ∀ (n : Nat) (ds : List Char), (∀ c ∈ ds, c ≠ '/') →
      ∀ c ∈ Nat.toDigitsCore 10 f n ds, c ≠ '/' := by
  induction f with
  | zero => intro n ds h; simpa [Nat.toDigitsCore] using h
  | succ f ih =>
    intro n ds h
    simp only [Nat.toDigitsCore]
    have h2 : ∀ c ∈ Nat.digitChar (n % 10) :: ds, c ≠ '/' := by
      intro c hc
      rcases List.mem_cons.1 hc with rfl | hc
      · exact digitChar_ne_slash _ (Nat.mod_lt _ (by decide))
      · exact h c hc
    split
    · exact h2
    · exact ih _ _ h2

/-- The text of `%d` contains no separator. -/
theorem repr_ne_slash (n : Nat) : ∀ c ∈ (toString n).data, c ≠ '/' := by
  show ∀ c ∈ (Nat.repr n).data, c ≠ '/'
  simp only [Nat.repr, Nat.toDigits, List.asString]
  exact toDigitsCore_ne_slash _ _ _ (by simp)

/-- In a path without separator the first element is the whole path. -/
theorem takeWhile_notSep (l : List Char) (h : ∀ c ∈ l, c ≠ '/') :
    l.takeWhile (fun x => !isPathSeparator x) = l ∧
      l.dropWhile (fun x => !isPathSeparator x) = [] := by
  constructor
  · rw [List.takeWhile_eq_self_iff]
    intro c hc; simpa [isPathSeparator] using h c hc
  · rw [List.dropWhile_eq_nil_iff]
    intro c hc; simpa [isPathSeparator] using h c hc

/-- `filepath.Clean` returns unchanged a path that has no separator and contains a byte
that is not a dot. -/
theorem clean_of_no_sep (path : String) (h : ∀ c ∈ path.data, c ≠ '/')
    (x : Char) (hx : x ∈ path.data) (hxd : x ≠ '.') : Clean path = path := by
  rcases path with ⟨l⟩
  cases l with
  | nil => simp at hx
  | cons c rest =>
    have hc : isPathSeparator c = false := by simpa [isPathSeparator] using h c (by simp)
    have hrest : ∀ y ∈ rest, y ≠ '/' := fun y hy => h y (by simp [hy])
    have hend : ∀ l : List Char, (∀ y ∈ l, y ≠ '/') → (endOrSep l = true ↔ l = []) := by
      intro l hl
      cases l with
      | nil => simp [endOrSep]
      | cons a l => simpa [endOrSep, isPathSeparator] using hl a (by simp)
    have h1 : ¬ (c = '.' ∧ endOrSep rest = true) := by
      rintro ⟨rfl, he⟩
      rw [hend rest hrest] at he
      subst he
      simp at hx
      exact hxd hx
    have h2 : ¬ (c = '.' ∧ rest.head? = some '.' ∧ endOrSep rest.tail = true) := by
      rintro ⟨rfl, hh, he⟩
      cases rest with
      | nil => simp at hh
      | cons b rest2 =>
        simp at hh
        subst hh
        simp only [List.tail_cons] at he
        rw [hend rest2 (fun y hy => hrest y (by simp [hy]))] at he
        subst he
        simp at hx
        exact hxd hx
    have htd := takeWhile_notSep (c :: rest) h
    simp only [Clean, hc, cleanLoop, h1, h2, htd.1, htd.2]
    simp
/-- Dropping the first path element does not lengthen the path. -/
theorem dropWhile_notSep_length (l : List Char) :
    (l.dropWhile (fun x => !isPathSeparator x)).length ≤ l.length := by
  induction l with
  | nil => simp
  | cons a l ih =>
    rw [List.dropWhile_cons]
    split
    · exact Nat.le_succ_of_le ih
    · exact Nat.le_refl _

/-- The main loop of `filepath.Clean` reads at least one byte in every iteration: any two
fuel bounds that are at least the length of the unread part give the same result. -/
theorem cleanLoop_fuel (rooted : Bool) (f1 : Nat) :
    ∀ (f2 : Nat) (rest out : List Char) (dotdot : Nat), rest.length ≤ f1 → rest.length ≤ f2 →
      cleanLoop rooted f1 rest out dotdot = cleanLoop rooted f2 rest out dotdot := by
  induction f1 with
  | zero =>
    intro f2 rest out dotdot h1 _
    have : rest = [] := List.length_eq_zero.1 (Nat.le_zero.1 h1)
    subst this
    cases f2 <;> rfl
  | succ f1 ih =>
    intro f2 rest out dotdot h1 h2
    cases rest with
    | nil => cases f2 <;> rfl
    | cons c rest =>
      cases f2 with
      | zero => simp at h2
      | succ f2 =>
        have h1r : rest.length ≤ f1 := by simpa using h1
        have h2r : rest.length ≤ f2 := by simpa using h2
        have ht1 : rest.tail.length ≤ f1 := by
          rw [List.length_tail]; omega
        have ht2 : rest.tail.length ≤ f2 := by
          rw [List.length_tail]; omega
        have hd := dropWhile_notSep_length (c :: rest)
        simp only [cleanLoop]
        split
        · exact ih _ _ _ _ h1r h2r
        · split
          · exact ih _ _ _ _ h1r h2r
          · split
            · split
              · exact ih _ _ _ _ ht1 ht2
              · split
                · exact ih _ _ _ _ ht1 ht2
                · exact ih _ _ _ _ ht1 ht2
            · rename_i hsep _ _
              have hc : (!isPathSeparator c) = true := by simpa using hsep
              have hdrop : (List.dropWhile (fun x => !isPathSeparator x) (c :: rest)).length ≤
                  rest.length := by
                rw [List.dropWhile_cons, if_pos hc]
                exact dropWhile_notSep_length rest
              exact ih _ _ _ _ (Nat.le_trans hdrop h1r) (Nat.le_trans hdrop h2r)

/-- The bytes of `"%s-%d"`: the name, a hyphen, the decimal digits. -/
theorem sprintfNameIndex_data (name : String) (index : Nat) :
    (sprintfNameIndex name index).data = name.data ++ '-' :: (toString index).data := by
  simp [sprintfNameIndex, String.data_append]

/-- Joining the empty directory with `"%s-%d"` cleans the latter. -/
theorem join_empty_sprintf (name : String) (index : Nat) :
    Join "" (sprintfNameIndex name index) = Clean (sprintfNameIndex name index) := by
  have h : sprintfNameIndex name index ≠ "" := by
    intro h
    have := congrArg String.data h
    rw [sprintfNameIndex_data] at this
    simp at this
  simp [Join, h]

/-- Cleaning leaves `"%s-%d"` unchanged when the name has no separator. -/
theorem clean_sprintf_of_no_sep (name : String) (index : Nat) (h : ∀ c ∈ name.data, c ≠ '/') :
    Clean (sprintfNameIndex name index) = sprintfNameIndex name index := by
  apply clean_of_no_sep _ _ '-' _ (by decide)
  · intro c hc
    rw [sprintfNameIndex_data] at hc
    rcases List.mem_append.1 hc with hc | hc
    · exact h c hc
    · rcases List.mem_cons.1 hc with rfl | hc
      · decide
      · exact repr_ne_slash index c hc
  · rw [sprintfNameIndex_data]; simp

/-- Lookup in the image of `List.range`. -/
theorem range_map_getElem? {α : Type} (g : Nat → α) (n i : Nat) :
    ((List.range n).map g)[i]? = if i < n then some (g i) else none := by
  by_cases h : i < n
  · simp [h, List.getElem?_range h]
  · simp [h]
    omega

/-! ## The planning loops in closed form -/

/-- The action built by `convertAction` does not depend on the world. -/
theorem convertAction_fst_world {σ : Type} (s : stepCreateDisk) (disk : Disk) (driver : Driver σ)
    (w w0 : World σ) : (s.convertAction disk driver w).1 = (s.convertAction disk driver w0).1 := by
  simp only [stepCreateDisk.convertAction]
  split <;> rfl

/-- The action built by the body of the first loop does not depend on the world. -/
theorem sourceAction_fst_world {σ : Type} (s : stepCreateDisk) (name source_dir : String)
    (driver : Driver σ) (i : Nat) (d : String) (w w0 : World σ) :
    (s.sourceAction name source_dir driver i d w).1 =
      (s.sourceAction name source_dir driver i d w0).1 := by
  simp only [stepCreateDisk.sourceAction]
  split
  · rfl
  · split
    · exact convertAction_fst_world _ _ _ _ _
    · rfl

/-- The first loop appends, for each element and its index, the action of the loop body. -/
theorem sourceLoop_fst {σ : Type} (s : stepCreateDisk) (name source_dir : String)
    (driver : Driver σ) (w0 : World σ) (ds : List String) :
    ∀ (i : Nat) (acc : List (ActionDisk σ)) (w : World σ),
      (s.sourceLoop name source_dir driver i ds acc w).1 =
        acc ++ (ds.enumFrom i).map
          (fun p => (s.sourceAction name source_dir driver p.1 p.2 w0).1) := by
  induction ds with
  | nil => intro i acc w; simp [stepCreateDisk.sourceLoop]
  | cons d ds ih =>
    intro i acc w
    simp only [stepCreateDisk.sourceLoop, List.enumFrom_cons, List.map_cons]
    rw [ih, sourceAction_fst_world s name source_dir driver i d w w0]
    simp

/-- The second loop appends one `create` action for each size and its index. -/
theorem additionalLoop_eq {σ : Type} (s : stepCreateDisk) (name : String) (nb : Nat)
    (driver : Driver σ) (sizes : List String) :
    ∀ (i : Nat) (acc : List (ActionDisk σ)),
      s.additionalLoop name nb driver i sizes acc =
        acc ++ (sizes.enumFrom i).map (fun p =>
          s.createAction
            { FullPath := s.get_target_path name (nb + p.1), Size := p.2, Format := s.Format }
            driver) := by
  induction sizes with
  | nil => intro i acc; simp [stepCreateDisk.additionalLoop]
  | cons d ds ih =>
    intro i acc
    simp only [stepCreateDisk.additionalLoop, List.enumFrom_cons, List.map_cons]
    rw [ih]
    simp

/-- The disk, the extra arguments and the driver of the action of the loop body. -/
theorem sourceAction_disk {σ : Type} (s : stepCreateDisk) (name source_dir : String)
    (driver : Driver σ) (i : Nat) (d : String) (w : World σ) :
    (s.sourceAction name source_dir driver i d w).1.Disk =
        { FullPath := s.get_target_path name i, Source := Join source_dir d,
          Format := s.Format, Size := s.DiskSize } ∧
      (s.sourceAction name source_dir driver i d w).1.QemuImgArgs = s.QemuImgArgs ∧
      (s.sourceAction name source_dir driver i d w).1.Driver = driver := by
  simp only [stepCreateDisk.sourceAction, stepCreateDisk.convertAction]
  split
  · exact ⟨rfl, rfl, rfl⟩
  · split
    · split <;> exact ⟨rfl, rfl, rfl⟩
    · exact ⟨rfl, rfl, rfl⟩

/-- The type of the action of the loop body, by the flags of the step. -/
theorem sourceAction_type {σ : Type} (s : stepCreateDisk) (name source_dir : String)
    (driver : Driver σ) (i : Nat) (d : String) (w : World σ) :
    (s.sourceAction name source_dir driver i d w).1.ActionType =
      if s.DiskImage = true ∧ s.UseBackingFile = true then "backing"
      else if s.DiskImage = true then
        if Ext (Join source_dir d) = "." ++ s.Format ∧ s.QemuImgArgs.Convert = [] then "copy"
        else "convert"
      else "create" := by
  have key := ext_test_iff (Join source_dir d) s.Format
  simp only [stepCreateDisk.sourceAction, stepCreateDisk.convertAction]
  by_cases h1 : s.DiskImage = true ∧ s.UseBackingFile = true
  · simp [h1, stepCreateDisk.backingAction]
  · by_cases h2 : s.DiskImage = true
    · have h3 : s.UseBackingFile = false := by
        cases hb : s.UseBackingFile
        · rfl
        · exact absurd ⟨h2, hb⟩ h1
      simp only [h2, h3, true_and, ← and_assoc, key, List.length_eq_zero]
      simp only [Bool.false_eq_true, ↓reduceIte]
      split <;> rfl
    · simp [h2, stepCreateDisk.createAction]

/-- The i-th source-derived action is the loop body at the i-th source disk. -/
theorem sourceActions_getElem? {σ : Type} (s : stepCreateDisk) (state : StateBag σ)
    (w w0 : World σ) (i : Nat) :
    (s.sourceActions state w).1[i]? =
      ((s.disksOrder state.iso_path)[i]?).map (fun d =>
        (s.sourceAction s.VMName (s.source_dir state.iso_path) state.driver i d w0).1) := by
  simp only [stepCreateDisk.sourceActions]
  rw [sourceLoop_fst s s.VMName (s.source_dir state.iso_path) state.driver w0]
  simp only [List.nil_append, List.getElem?_map, List.getElem?_enumFrom, Option.map_map]
  cases (s.disksOrder state.iso_path)[i]? <;> simp

/-- There is one source-derived action for each source disk. -/
theorem sourceActions_length {σ : Type} (s : stepCreateDisk) (state : StateBag σ)
    (w : World σ) :
    (s.sourceActions state w).1.length = (s.disksOrder state.iso_path).length := by
  simp only [stepCreateDisk.sourceActions]
  rw [sourceLoop_fst s s.VMName (s.source_dir state.iso_path) state.driver w]
  simp [List.enumFrom_length]

/-- The plan is the source-derived actions followed by the additional-disk actions. -/
theorem planActions_eq {σ : Type} (s : stepCreateDisk) (state : StateBag σ) (w : World σ) :
    (s.planActions state w).1 =
      (s.sourceActions state w).1 ++ (s.AdditionalDiskSize.enumFrom 0).map (fun p =>
        s.createAction
          { FullPath := s.get_target_path s.VMName ((s.disksOrder state.iso_path).length + p.1),
            Size := p.2, Format := s.Format }
          state.driver) := by
  simp only [stepCreateDisk.planActions]
  split
  · rw [additionalLoop_eq, sourceActions_length]
  · rename_i h
    have : s.AdditionalDiskSize = [] := by
      cases hA : s.AdditionalDiskSize with
      | nil => rfl
      | cons a l => rw [hA] at h; simp at h
    simp [this]

/-- The target path of the i-th planned action is `get_target_path` at `i`. -/
theorem planActions_getElem? {σ : Type} (s : stepCreateDisk) (state : StateBag σ)
    (w : World σ) (i : Nat) :
    ((s.planActions state w).1[i]?).map (fun a => a.Disk.FullPath) =
      if i < (s.disksOrder state.iso_path).length + s.AdditionalDiskSize.length then
        some (s.get_target_path s.VMName i)
      else none := by
  rw [planActions_eq]
  by_cases h1 : i < (s.disksOrder state.iso_path).length
  · rw [List.getElem?_append_left (by rw [sourceActions_length]; exact h1),
      sourceActions_getElem? s state w w i]
    have h2 : i < (s.disksOrder state.iso_path).length + s.AdditionalDiskSize.length := by omega
    simp [h1, h2, (sourceAction_disk _ _ _ _ _ _ _).1]
  · have h1b : (s.sourceActions state w).1.length ≤ i := by
      rw [sourceActions_length]; omega
    rw [List.getElem?_append_right h1b, sourceActions_length]
    simp only [List.getElem?_map, List.getElem?_enumFrom, Option.map_map]
    by_cases h2 : i < (s.disksOrder state.iso_path).length + s.AdditionalDiskSize.length
    · have h3 : i - (s.disksOrder state.iso_path).length < s.AdditionalDiskSize.length := by omega
      have h4 : (s.disksOrder state.iso_path).length +
          (i - (s.disksOrder state.iso_path).length) = i := by omega
      simp [h2, List.getElem?_eq_getElem h3, stepCreateDisk.createAction, h4]
    · have h3 : s.AdditionalDiskSize.length ≤ i - (s.disksOrder state.iso_path).length := by omega
      simp [h2, List.getElem?_eq_none h3]

/-- The i-th planned action, for `i` the index of a source disk. -/
theorem planActions_getElem?_source {σ : Type} (s : stepCreateDisk) (state : StateBag σ)
    (w : World σ) (i : Nat) (d : String) (h : (s.disksOrder state.iso_path)[i]? = some d) :
    (s.planActions state w).1[i]? =
      some (s.sourceAction s.VMName (s.source_dir state.iso_path) state.driver i d w).1 := by
  have hi : i < (s.disksOrder state.iso_path).length := (List.getElem?_eq_some.1 h).1
  rw [planActions_eq, List.getElem?_append_left (by rw [sourceActions_length]; exact hi),
    sourceActions_getElem? s state w w i, h]
  rfl

/-- The plan has one action for each source disk and each additional size. -/
theorem planActions_length {σ : Type} (s : stepCreateDisk) (state : StateBag σ) (w : World σ) :
    (s.planActions state w).1.length =
      (s.disksOrder state.iso_path).length + s.AdditionalDiskSize.length := by
  rw [planActions_eq]
  simp [sourceActions_length, List.enumFrom_length]

/-- The target paths of the plan, in order. -/
theorem planActions_map_fullPath {σ : Type} (s : stepCreateDisk) (state : StateBag σ)
    (w : World σ) :
    (s.planActions state w).1.map (fun a => a.Disk.FullPath) =
      (List.range ((s.disksOrder state.iso_path).length + s.AdditionalDiskSize.length)).map
        (fun N => s.get_target_path s.VMName N) := by
  apply List.ext_getElem?
  intro i
  rw [List.getElem?_map, planActions_getElem?, range_map_getElem?]

/-- The last token of the backing command is the target path. -/
theorem buildBackingCommand_getLast? {σ : Type} (a : ActionDisk σ) :
    a.BuildBackingCommand.getLast? = some a.Disk.FullPath := by
  have h : a.BuildBackingCommand =
      (["create", "-f", a.Disk.Format] ++ a.QemuImgArgs.Create ++ ["-b", a.Disk.Source]) ++
        [a.Disk.FullPath] := by
    simp [ActionDisk.BuildBackingCommand]
  rw [h, List.getLast?_append]
  rfl

/-! ## Which action is planned for a source disk -/

/-- C1, as the code has it: with `DiskImage` set and `UseBackingFile` unset, the action
planned for every source disk is `copy` when the disk's source path has an extension
(`filepath.Ext` of it is not empty), that extension without its leading dot equals `Format`
(compared byte for byte) and `QemuImgArgs.Convert` is empty, and `convert` in every other
case. The first two conditions say together that the extension is a dot followed by
`Format`. -/
theorem run_plans_copy_or_convert {σ : Type} (s : stepCreateDisk) (state : StateBag σ)
    (w : World σ) (hImage : s.DiskImage = true) (hBacking : s.UseBackingFile = false) :
    ∀ (i : Nat) (d : String), (s.disksOrder state.iso_path)[i]? = some d →
      ∃ a, (s.planActions state w).1[i]? = some a ∧
        a.Disk.Source = Join (s.source_dir state.iso_path) d ∧
        (a.ActionType =
          if Ext a.Disk.Source ≠ "" ∧ sliceFrom1 (Ext a.Disk.Source) = s.Format ∧
              s.QemuImgArgs.Convert = [] then "copy"
          else "convert") ∧
        ((Ext a.Disk.Source ≠ "" ∧ sliceFrom1 (Ext a.Disk.Source) = s.Format) ↔
          Ext a.Disk.Source = "." ++ s.Format) := by
  intro i d hd
  have hne : ∀ p : String, p ≠ "" ↔ 1 ≤ p.length := by
    intro p
    rw [Ne, String.ext_iff, String.length, Nat.one_le_iff_ne_zero, Ne, List.length_eq_zero]
  refine ⟨_, planActions_getElem?_source s state w i d hd, ?_, ?_, ?_⟩
  · rw [(sourceAction_disk _ _ _ _ _ _ _).1]
  · rw [sourceAction_type, (sourceAction_disk _ _ _ _ _ _ _).1]
    simp only [hImage, hBacking, Bool.false_eq_true, and_false, ↓reduceIte, ← and_assoc, hne,
      ext_test_iff]
  · rw [hne, ext_test_iff]

/-- C1 on the inputs of the test table: `source.qcow2` with format `qcow2` and no extra
arguments is copied, `source0.qcow2.extract` is converted. -/
theorem run_plans_copy_or_convert_witness :
    (imageStep.DiskImage = true ∧ imageStep.UseBackingFile = false ∧
      (imageStep.disksOrder (okState "source.qcow2").iso_path)[0]? = some "source.qcow2" ∧
      ∃ a, (imageStep.planActions (okState "source.qcow2") okWorld).1[0]? = some a ∧
        a.Disk.Source = Join (imageStep.source_dir (okState "source.qcow2").iso_path)
          "source.qcow2" ∧
        (a.ActionType =
          if Ext a.Disk.Source ≠ "" ∧ sliceFrom1 (Ext a.Disk.Source) = imageStep.Format ∧
              imageStep.QemuImgArgs.Convert = [] then "copy"
          else "convert") ∧
        ((Ext a.Disk.Source ≠ "" ∧ sliceFrom1 (Ext a.Disk.Source) = imageStep.Format) ↔
          Ext a.Disk.Source = "." ++ imageStep.Format)) ∧
      (imageStep.planActions (okState "source.qcow2") okWorld).1.map (fun a => a.ActionType) =
        ["copy", "create", "create"] ∧
      ((manyDisksStep.planActions (okState "output_archive") okWorld).1.map
        (fun a => a.ActionType)).take 1 = ["convert"] :=
  ⟨⟨by decide, by decide, by decide,
    run_plans_copy_or_convert imageStep (okState "source.qcow2") okWorld (by decide) (by decide)
      0 "source.qcow2" (by decide)⟩, by decide, by decide⟩

/-- C1 as stated fails: with an empty `Format`, no extra arguments and the source path
`disk`, which has no extension, the extension without a leading dot is the empty string and
so equals `Format`, yet the planned action is `convert`. -/
theorem run_plans_convert_without_extension :
    noExtensionStep.DiskImage = true ∧ noExtensionStep.UseBackingFile = false ∧
      noExtensionStep.QemuImgArgs.Convert = [] ∧
      Ext "disk" = "" ∧ sliceFrom1 (Ext "disk") = noExtensionStep.Format ∧
      (noExtensionStep.planActions (okState "disk") okWorld).1.map
        (fun a => (a.Disk.Source, a.ActionType)) = [("disk", "convert")] := by
  decide

/-- C2: with `DiskImage` unset, the action planned for every source disk is `create`,
whatever `UseBackingFile`, `Format`, `ManyDisks`, `QemuImgArgs` and the source name are. -/
theorem run_plans_create {σ : Type} (s : stepCreateDisk) (state : StateBag σ)
    (w : World σ) (hImage : s.DiskImage = false) :
    ∀ (i : Nat) (d : String), (s.disksOrder state.iso_path)[i]? = some d →
      ∃ a, (s.planActions state w).1[i]? = some a ∧ a.ActionType = "create" := by
  intro i d hd
  refine ⟨_, planActions_getElem?_source s state w i d hd, ?_⟩
  rw [sourceAction_type]
  simp [hImage]

/-- C2 on the second case of the test table. -/
theorem run_plans_create_witness :
    rawStep.DiskImage = false ∧
      (rawStep.disksOrder (okState "source.qcow2").iso_path)[0]? = some "source.qcow2" ∧
      (∃ a, (rawStep.planActions (okState "source.qcow2") okWorld).1[0]? = some a ∧
        a.ActionType = "create") ∧
      (rawStep.planActions (okState "source.qcow2") okWorld).1.map (fun a => a.ActionType) =
        ["create"] :=
  ⟨by decide, by decide,
    run_plans_create rawStep (okState "source.qcow2") okWorld (by decide) 0 "source.qcow2"
      (by decide), by decide⟩

/-- C3: with `DiskImage` and `UseBackingFile` both set, the action planned for every source
disk is `backing`; running it issues one `QemuImg` call with `BuildBackingCommand`, whose
last token is the target path, which has `6 + len(QemuImgArgs.Create)` tokens, and which is
the same command whatever `DiskSize` is. -/
theorem run_plans_backing {σ : Type} (s : stepCreateDisk) (state : StateBag σ)
    (w : World σ) (hImage : s.DiskImage = true) (hBacking : s.UseBackingFile = true) :
    ∀ (i : Nat) (d : String), (s.disksOrder state.iso_path)[i]? = some d →
      ∃ a, (s.planActions state w).1[i]? = some a ∧ a.ActionType = "backing" ∧
        (∀ w1 : World σ,
          (a.RunCommand w1).2.calls = w1.calls ++ [DriverCall.QemuImg a.BuildBackingCommand]) ∧
        a.BuildBackingCommand.getLast? = some a.Disk.FullPath ∧
        a.BuildBackingCommand.length = 6 + s.QemuImgArgs.Create.length ∧
        ∀ size : String, ∃ b,
          (stepCreateDisk.planActions { s with DiskSize := size } state w).1[i]? = some b ∧
            b.ActionType = "backing" ∧ b.BuildBackingCommand = a.BuildBackingCommand := by
  intro i d hd
  have hty : ∀ t : stepCreateDisk, t.DiskImage = true → t.UseBackingFile = true →
      (t.sourceAction t.VMName (t.source_dir state.iso_path) state.driver i d w).1.ActionType =
        "backing" := by
    intro t h1 h2
    rw [sourceAction_type]; simp [h1, h2]
  refine ⟨_, planActions_getElem?_source s state w i d hd, hty s hImage hBacking, ?_, ?_, ?_, ?_⟩
  · intro w1
    simp [ActionDisk.RunCommand, hty s hImage hBacking, World.callQemuImg]
  · exact buildBackingCommand_getLast? _
  · simp only [ActionDisk.BuildBackingCommand, (sourceAction_disk _ _ _ _ _ _ _).2.1,
      List.length_append, List.length_cons, List.length_nil]
    omega
  · intro size
    refine ⟨_, planActions_getElem?_source { s with DiskSize := size } state w i d hd,
      hty _ hImage hBacking, ?_⟩
    simp only [ActionDisk.BuildBackingCommand, (sourceAction_disk _ _ _ _ _ _ _).1,
      (sourceAction_disk _ _ _ _ _ _ _).2.1]
    rfl

/-- C3 on the fifth case of the test table: the backing command has six tokens and is the
same when the disk size is changed from `1M` to `9G`. -/
theorem run_plans_backing_witness :
    backingStep.DiskImage = true ∧ backingStep.UseBackingFile = true ∧
      (backingStep.disksOrder (okState "source.qcow2").iso_path)[0]? = some "source.qcow2" ∧
      (∃ a, (backingStep.planActions (okState "source.qcow2") okWorld).1[0]? = some a ∧
        a.ActionType = "backing" ∧
        (∀ w1 : World Unit,
          (a.RunCommand w1).2.calls = w1.calls ++ [DriverCall.QemuImg a.BuildBackingCommand]) ∧
        a.BuildBackingCommand.getLast? = some a.Disk.FullPath ∧
        a.BuildBackingCommand.length = 6 + backingStep.QemuImgArgs.Create.length ∧
        ∀ size : String, ∃ b,
          (stepCreateDisk.planActions { backingStep with DiskSize := size }
            (okState "source.qcow2") okWorld).1[0]? = some b ∧
            b.ActionType = "backing" ∧ b.BuildBackingCommand = a.BuildBackingCommand) ∧
      ((backingStep.planActions (okState "source.qcow2") okWorld).1.map
          (fun a => a.BuildBackingCommand)).take 1 =
        [["create", "-f", "qcow2", "-b", "source.qcow2", "target-0"]] ∧
      ((stepCreateDisk.planActions { backingStep with DiskSize := "9G" }
          (okState "source.qcow2") okWorld).1.map (fun a => a.BuildBackingCommand)).take 1 =
        [["create", "-f", "qcow2", "-b", "source.qcow2", "target-0"]] :=
  ⟨by decide, by decide, by decide,
    run_plans_backing backingStep (okState "source.qcow2") okWorld (by decide) (by decide)
      0 "source.qcow2" (by decide), by decide, by decide⟩

/-! ## Target paths -/

/-- C4, as the code has it: the N-th planned action (counted from zero over the
source-derived actions followed by the additional-disk actions, copies included) has
`FullPath` equal to `filepath.Join(OutputDir, "{VMName}-{N}")`. When `OutputDir` is empty
that is `filepath.Clean("{VMName}-{N}")`, and it is the bare string `"{VMName}-{N}"` when
moreover `VMName` contains no `/`. -/
theorem run_target_paths {σ : Type} (s : stepCreateDisk) (state : StateBag σ) (w : World σ) :
    (s.planActions state w).1.length =
        (s.disksOrder state.iso_path).length + s.AdditionalDiskSize.length ∧
      (s.planActions state w).1.map (fun a => a.Disk.FullPath) =
        (List.range ((s.disksOrder state.iso_path).length + s.AdditionalDiskSize.length)).map
          (fun N => Join s.OutputDir (sprintfNameIndex s.VMName N)) ∧
      (s.OutputDir = "" →
        (s.planActions state w).1.map (fun a => a.Disk.FullPath) =
          (List.range ((s.disksOrder state.iso_path).length + s.AdditionalDiskSize.length)).map
            (fun N => Clean (sprintfNameIndex s.VMName N))) ∧
      (s.OutputDir = "" → (∀ c ∈ s.VMName.data, c ≠ '/') →
        (s.planActions state w).1.map (fun a => a.Disk.FullPath) =
          (List.range ((s.disksOrder state.iso_path).length + s.AdditionalDiskSize.length)).map
            (fun N => sprintfNameIndex s.VMName N)) := by
  refine ⟨planActions_length s state w, planActions_map_fullPath s state w, ?_, ?_⟩
  · intro hO
    rw [planActions_map_fullPath]
    simp only [stepCreateDisk.get_target_path, hO, join_empty_sprintf]
  · intro hO hN
    rw [planActions_map_fullPath]
    simp only [stepCreateDisk.get_target_path, hO, join_empty_sprintf,
      clean_sprintf_of_no_sep _ _ hN]

/-- C4 on the third case of the test table: one source and the additional sizes `3M` and
`8M` with machine name `target` give `target-0`, `target-1`, `target-2`. -/
theorem run_target_paths_witness :
    imageStep.OutputDir = "" ∧ (∀ c ∈ imageStep.VMName.data, c ≠ '/') ∧
      (imageStep.planActions (okState "source.qcow2") okWorld).1.map (fun a => a.Disk.FullPath) =
        ["target-0", "target-1", "target-2"] ∧
      (imageStep.planActions (okState "source.qcow2") okWorld).1.map (fun a => a.Disk.FullPath) =
        [Clean "target-0", Clean "target-1", Clean "target-2"] :=
  ⟨by decide, by decide,
    ((run_target_paths imageStep (okState "source.qcow2") okWorld).2.2.2 (by decide)
      (by decide)).trans (by decide),
    ((run_target_paths imageStep (okState "source.qcow2") okWorld).2.2.1 (by decide)).trans
      (by decide)⟩

/-- C4 as stated fails: with an empty `OutputDir` and the machine name `./vm`, the path
of the first planned action is `vm-0`, not the bare string `./vm-0`. -/
theorem run_target_paths_not_bare :
    dotSlashStep.OutputDir = "" ∧ sprintfNameIndex dotSlashStep.VMName 0 = "./vm-0" ∧
      (dotSlashStep.planActions (okState "source.qcow2") okWorld).1.map
        (fun a => a.Disk.FullPath) = ["vm-0"] ∧
      ((dotSlashStep.planActions (okState "source.qcow2") okWorld).1.map
        (fun a => a.Disk.FullPath))[0]? ≠ some (sprintfNameIndex dotSlashStep.VMName 0) := by
  decide

/-! ## Command construction -/

/-- C5: for every `ActionDisk`, `BuildCreateCommand` is exactly
`["create", "-f", Format] ++ Create ++ [FullPath, Size]`, and replacing the source path, the
`Convert` list and the `Resize` list by anything else leaves the command unchanged. -/
theorem buildCreateCommand_eq {σ : Type} (d : ActionDisk σ) :
    d.BuildCreateCommand =
        ["create", "-f", d.Disk.Format] ++ d.QemuImgArgs.Create ++ [d.Disk.FullPath, d.Disk.Size] ∧
      ∀ (source : String) (convert resize : List String),
        ActionDisk.BuildCreateCommand
            { d with
              Disk := { d.Disk with Source := source }
              QemuImgArgs := { d.QemuImgArgs with Convert := convert, Resize := resize } } =
          d.BuildCreateCommand :=
  ⟨rfl, fun _ _ _ => rfl⟩

/-- C6: for every `ActionDisk`, `BuildConvertCommand` is exactly
`["convert", "-O", Format] ++ Convert ++ [Source, FullPath]`: whatever the extra list is, the
first three tokens are the fixed head, the extra arguments follow at once, and the two
paths are the last two tokens. -/
theorem buildConvertCommand_eq {σ : Type} (d : ActionDisk σ) :
    d.BuildConvertCommand =
        ["convert", "-O", d.Disk.Format] ++ d.QemuImgArgs.Convert ++
          [d.Disk.Source, d.Disk.FullPath] ∧
      d.BuildConvertCommand.take 3 = ["convert", "-O", d.Disk.Format] ∧
      (d.BuildConvertCommand.drop 3).take d.QemuImgArgs.Convert.length = d.QemuImgArgs.Convert ∧
      d.BuildConvertCommand.drop (3 + d.QemuImgArgs.Convert.length) =
        [d.Disk.Source, d.Disk.FullPath] := by
  refine ⟨rfl, rfl, ?_, ?_⟩
  · simp [ActionDisk.BuildConvertCommand]
  · simp [ActionDisk.BuildConvertCommand, Nat.add_comm 3, ← List.drop_drop]

/-- C7: for every `ActionDisk`, `BuildBackingCommand` is exactly
`["create", "-f", Format] ++ Create ++ ["-b", Source, FullPath]`; it is built from the
`Create` list and from no other list, and the size of the disk does not enter it. -/
theorem buildBackingCommand_eq {σ : Type} (d : ActionDisk σ) :
    d.BuildBackingCommand =
        ["create", "-f", d.Disk.Format] ++ d.QemuImgArgs.Create ++
          ["-b", d.Disk.Source, d.Disk.FullPath] ∧
      ∀ (size : String) (convert resize : List String),
        ActionDisk.BuildBackingCommand
            { d with
              Disk := { d.Disk with Size := size }
              QemuImgArgs := { d.QemuImgArgs with Convert := convert, Resize := resize } } =
          d.BuildBackingCommand :=
  ⟨rfl, fun _ _ _ => rfl⟩

/-- C8: for every `stepResizeDisk` and every path, `buildResizeCommand` is exactly
`["resize", "-f", Format] ++ Resize ++ [path, DiskSize]`. -/
theorem buildResizeCommand_eq (s : stepResizeDisk) (p : String) :
    s.buildResizeCommand p = ["resize", "-f", s.Format] ++ s.QemuImgArgs.Resize ++ [p, s.DiskSize] :=
  rfl

/-! ## Running one action -/

/-- C9: for an action of type `copy`, `RunCommand` makes one driver call,
`Copy(Source, FullPath)`, and no `QemuImg` call, and returns the result of that call; for the
types `create`, `convert` and `backing` it makes one `QemuImg` call with the tokens of
`BuildCreateCommand`, `BuildConvertCommand` and `BuildBackingCommand`, and no `Copy` call,
and returns the result of that call. The ui and the log are left as they are. -/
theorem runCommand_one_call {σ : Type} (d : ActionDisk σ) (w : World σ) :
    (d.ActionType = "copy" →
        d.RunCommand w =
          ((d.Driver.Copy d.Disk.Source d.Disk.FullPath w.driverState).1,
            { w with
              driverState := (d.Driver.Copy d.Disk.Source d.Disk.FullPath w.driverState).2
              calls := w.calls ++ [DriverCall.Copy d.Disk.Source d.Disk.FullPath] })) ∧
      (d.ActionType = "create" →
        d.RunCommand w =
          ((d.Driver.QemuImg d.BuildCreateCommand w.driverState).1,
            { w with
              driverState := (d.Driver.QemuImg d.BuildCreateCommand w.driverState).2
              calls := w.calls ++ [DriverCall.QemuImg d.BuildCreateCommand] })) ∧
      (d.ActionType = "convert" →
        d.RunCommand w =
          ((d.Driver.QemuImg d.BuildConvertCommand w.driverState).1,
            { w with
              driverState := (d.Driver.QemuImg d.BuildConvertCommand w.driverState).2
              calls := w.calls ++ [DriverCall.QemuImg d.BuildConvertCommand] })) ∧
      (d.ActionType = "backing" →
        d.RunCommand w =
          ((d.Driver.QemuImg d.BuildBackingCommand w.driverState).1,
            { w with
              driverState := (d.Driver.QemuImg d.BuildBackingCommand w.driverState).2
              calls := w.calls ++ [DriverCall.QemuImg d.BuildBackingCommand] })) := by
  refine ⟨?_, ?_, ?_, ?_⟩ <;> intro h <;>
    simp [ActionDisk.RunCommand, ActionDisk.RunCopyCommand, World.callCopy, World.callQemuImg, h]

/-- C9 on the actions of `Test_buildCreateCommand`, over a driver whose first call fails
with `boom` and whose later calls succeed: in each case the one call recorded is the
expected one and the result is that of the call. -/
theorem runCommand_one_call_witness :
    (((testAction 0 "copy").RunCommand { driverState := 0 }).1 = some "boom" ∧
        ((testAction 0 "copy").RunCommand { driverState := 0 }).2.calls =
          [DriverCall.Copy "source.qcow2" "target.qcow2"]) ∧
      (((testAction 0 "create").RunCommand { driverState := 1 }).1 = none ∧
        ((testAction 0 "create").RunCommand { driverState := 1 }).2.calls =
          [DriverCall.QemuImg ["create", "-f", "qcow2", "-foo", "-bar", "target.qcow2", "1234M"]]) ∧
      (((testAction 0 "convert").RunCommand { driverState := 0 }).1 = some "boom" ∧
        ((testAction 0 "convert").RunCommand { driverState := 0 }).2.calls =
          [DriverCall.QemuImg ["convert", "-O", "qcow2", "source.qcow2", "target.qcow2"]]) ∧
      (((testAction 0 "backing").RunCommand { driverState := 1 }).1 = none ∧
        ((testAction 0 "backing").RunCommand { driverState := 1 }).2.calls =
          [DriverCall.QemuImg
            ["create", "-f", "qcow2", "-foo", "-bar", "-b", "source.qcow2", "target.qcow2"]]) := by
  refine ⟨?_, ?_, ?_, ?_⟩
  · rw [(runCommand_one_call (testAction 0 "copy") { driverState := 0 }).1 (by decide)]
    exact ⟨by decide, by decide⟩
  · rw [(runCommand_one_call (testAction 0 "create") { driverState := 1 }).2.1 (by decide)]
    exact ⟨by decide, by decide⟩
  · rw [(runCommand_one_call (testAction 0 "convert") { driverState := 0 }).2.2.1 (by decide)]
    exact ⟨by decide, by decide⟩
  · rw [(runCommand_one_call (testAction 0 "backing") { driverState := 1 }).2.2.2 (by decide)]
    exact ⟨by decide, by decide⟩

/-! ## Additional disks -/

/-- C10: the planned actions after the source-derived ones are one `create` action per
element of `AdditionalDiskSize`, in the same order, each with an empty `Source`, the
element as `Size` and the step's `Format`; the actions before them are the source-derived
ones, so the plan has as many actions as there are sources and additional sizes. -/
theorem run_additional_disks {σ : Type} (s : stepCreateDisk) (state : StateBag σ)
    (w : World σ) :
    (s.planActions state w).1.take (s.disksOrder state.iso_path).length =
        (s.sourceActions state w).1 ∧
      ((s.planActions state w).1.drop (s.disksOrder state.iso_path).length).map
          (fun a => (a.ActionType, a.Disk.Source, a.Disk.Size, a.Disk.Format)) =
        s.AdditionalDiskSize.map (fun size => ("create", "", size, s.Format)) ∧
      (s.planActions state w).1.length =
        (s.disksOrder state.iso_path).length + s.AdditionalDiskSize.length := by
  have hlen := sourceActions_length s state w
  refine ⟨?_, ?_, planActions_length s state w⟩
  · rw [planActions_eq, ← hlen, List.take_left]
  · rw [planActions_eq, ← hlen, List.drop_left, List.map_map]
    have h : ∀ (l : List String) (n : Nat),
        (l.enumFrom n).map ((fun a : ActionDisk σ =>
            (a.ActionType, a.Disk.Source, a.Disk.Size, a.Disk.Format)) ∘ fun p =>
          s.createAction
            { FullPath := s.get_target_path s.VMName ((s.sourceActions state w).1.length + p.1),
              Size := p.2, Format := s.Format }
            state.driver) =
          l.map (fun size => ("create", "", size, s.Format)) := by
      intro l
      induction l with
      | nil => intro n; rfl
      | cons a l ih =>
        intro n
        rw [List.enumFrom_cons, List.map_cons, List.map_cons, ih]
        rfl
    exact h _ _

/-! ## Running a plan -/

/-- For an action of a known type, `RunCommand` is the one call `driverCall` names. -/
theorem runCommand_of_driverCall {σ : Type} (d : ActionDisk σ) (w : World σ) (c : DriverCall)
    (h : d.driverCall = some c) :
    d.RunCommand w =
      ((d.Driver.issue c w.driverState).1,
        { w with
          driverState := (d.Driver.issue c w.driverState).2
          calls := w.calls ++ [c] }) := by
  unfold ActionDisk.driverCall at h
  unfold ActionDisk.RunCommand
  split at h
  · rename_i h1
    cases h
    simp [h1, ActionDisk.RunCopyCommand, World.callCopy, Driver.issue]
  · rename_i h1
    split at h
    · rename_i h2
      cases h
      simp [h1, h2, World.callQemuImg, Driver.issue]
    · rename_i h2
      split at h
      · rename_i h3
        cases h
        simp [h1, h2, h3, World.callQemuImg, Driver.issue]
      · rename_i h3
        split at h
        · rename_i h4
          cases h
          simp [h1, h2, h3, h4, World.callQemuImg, Driver.issue]
        · cases h

/-- The third loop of `stepCreateDisk.Run` when the first call to fail is call number `k`:
the loop halts, records the error, and has made the calls up to that one. -/
theorem createLoop_halt {σ : Type} (driver : Driver σ) (e : String) :
    ∀ (acts : List (ActionDisk σ)) (cs : List DriverCall) (k : Nat) (paths : List String)
      (state : StateBag σ) (w : World σ),
      (∀ a ∈ acts, a.Driver = driver) → acts.map ActionDisk.driverCall = cs.map some →
      (driver.results cs w.driverState).take (k + 1) = List.replicate k none ++ [some e] →
      (stepCreateDisk.createLoop acts paths state w).1 = StepAction.ActionHalt ∧
        (stepCreateDisk.createLoop acts paths state w).2.1 =
          { state with error := some ("error creating hard drive: " ++ e) } ∧
        (stepCreateDisk.createLoop acts paths state w).2.2.calls = w.calls ++ cs.take (k + 1) := by
  intro acts
  induction acts with
  | nil =>
    intro cs k paths state w _ hcs hres
    cases cs with
    | nil => simp [Driver.results] at hres
    | cons c cs => simp at hcs
  | cons a rest ih =>
    intro cs k paths state w hdrv hcs hres
    cases cs with
    | nil => simp at hcs
    | cons c cs =>
      simp only [List.map_cons, List.cons.injEq] at hcs
      have hda : a.Driver = driver := hdrv a (by simp)
      have hrun := fun w1 : World σ => runCommand_of_driverCall a w1 c hcs.1
      simp only [Driver.results, List.take_succ_cons] at hres
      cases k with
      | zero =>
        simp only [List.take_zero, List.replicate_zero, List.nil_append, List.cons.injEq,
          and_true] at hres
        simp only [stepCreateDisk.createLoop, hrun, hda, World.logPrintf, hres]
        simp [World.uiCall]
      | succ k =>
        simp only [List.replicate_succ, List.cons_append, List.cons.injEq] at hres
        simp only [stepCreateDisk.createLoop, hrun, hda, World.logPrintf, hres.1]
        have := ih cs k (paths ++ [a.Disk.FullPath]) state
          { driverState := (driver.issue c w.driverState).2, calls := w.calls ++ [c],
            ui := w.ui,
            log := w.log ++ ["[INFO] Creating/Copy disk with Path: " ++ a.Disk.FullPath ++
              " and Size: " ++ a.Disk.Size] }
          (fun b hb => hdrv b (by simp [hb])) hcs.2 hres.2
        simpa using this

/-- The third loop of `stepCreateDisk.Run` when every call succeeds: the loop continues to
its end, puts the paths of all the actions, and has made all the calls. -/
theorem createLoop_continue {σ : Type} (driver : Driver σ) :
    ∀ (acts : List (ActionDisk σ)) (cs : List DriverCall) (paths : List String)
      (state : StateBag σ) (w : World σ),
      (∀ a ∈ acts, a.Driver = driver) → acts.map ActionDisk.driverCall = cs.map some →
      (∀ r ∈ driver.results cs w.driverState, r = none) →
      (stepCreateDisk.createLoop acts paths state w).1 = StepAction.ActionContinue ∧
        (stepCreateDisk.createLoop acts paths state w).2.1 =
          { state with
            qemu_disk_paths := some (paths ++ acts.map (fun a => a.Disk.FullPath)) } ∧
        (stepCreateDisk.createLoop acts paths state w).2.2.calls = w.calls ++ cs := by
  intro acts
  induction acts with
  | nil =>
    intro cs paths state w _ hcs _
    cases cs with
    | nil => simp [stepCreateDisk.createLoop]
    | cons c cs => simp at hcs
  | cons a rest ih =>
    intro cs paths state w hdrv hcs hres
    cases cs with
    | nil => simp at hcs
    | cons c cs =>
      simp only [List.map_cons, List.cons.injEq] at hcs
      have hda : a.Driver = driver := hdrv a (by simp)
      have hrun := fun w1 : World σ => runCommand_of_driverCall a w1 c hcs.1
      simp only [Driver.results, List.mem_cons, forall_eq_or_imp] at hres
      simp only [stepCreateDisk.createLoop, hrun, hda, World.logPrintf, hres.1]
      have := ih cs (paths ++ [a.Disk.FullPath]) state
        { driverState := (driver.issue c w.driverState).2, calls := w.calls ++ [c],
          ui := w.ui,
          log := w.log ++ ["[INFO] Creating/Copy disk with Path: " ++ a.Disk.FullPath ++
            " and Size: " ++ a.Disk.Size] }
        (fun b hb => hdrv b (by simp [hb])) hcs.2 hres.2
      simpa using this

/-- Every action of the loop body has the driver of the state bag and a known type. -/
theorem sourceAction_driverCall {σ : Type} (s : stepCreateDisk) (name source_dir : String)
    (driver : Driver σ) (i : Nat) (d : String) (w : World σ) :
    ∃ c, (s.sourceAction name source_dir driver i d w).1.driverCall = some c := by
  have h := sourceAction_type s name source_dir driver i d w
  unfold ActionDisk.driverCall
  rw [h]
  split_ifs <;> first | exact ⟨_, rfl⟩ | (exfalso; simp_all)

/-- A source-derived action is the action of the loop body at some index and source disk. -/
theorem mem_sourceActions {σ : Type} (s : stepCreateDisk) (state : StateBag σ) (w : World σ)
    (a : ActionDisk σ) (h : a ∈ (s.sourceActions state w).1) :
    ∃ (i : Nat) (d : String), (s.disksOrder state.iso_path)[i]? = some d ∧
      a = (s.sourceAction s.VMName (s.source_dir state.iso_path) state.driver i d w).1 := by
  obtain ⟨i, hi⟩ := List.mem_iff_getElem?.1 h
  rw [sourceActions_getElem? s state w w i] at hi
  cases hd : (s.disksOrder state.iso_path)[i]? with
  | none => rw [hd] at hi; simp at hi
  | some d =>
    rw [hd] at hi
    simp only [Option.map_some', Option.some.injEq] at hi
    exact ⟨i, d, hd, hi.symm⟩

/-- A planned action is source-derived or is a `create` action for an additional disk. -/
theorem mem_planActions {σ : Type} (s : stepCreateDisk) (state : StateBag σ) (w : World σ)
    (a : ActionDisk σ) (h : a ∈ (s.planActions state w).1) :
    a ∈ (s.sourceActions state w).1 ∨
      ∃ (j : Nat) (size : String), a = s.createAction
        { FullPath := s.get_target_path s.VMName ((s.disksOrder state.iso_path).length + j),
          Size := size, Format := s.Format } state.driver := by
  rw [planActions_eq] at h
  rcases List.mem_append.1 h with h | h
  · exact Or.inl h
  · obtain ⟨p, _, hp⟩ := List.mem_map.1 h
    exact Or.inr ⟨p.1, p.2, hp.symm⟩

/-- Every planned action holds the driver of the state bag and makes a driver call. -/
theorem planActions_driver {σ : Type} (s : stepCreateDisk) (state : StateBag σ) (w : World σ)
    (a : ActionDisk σ) (h : a ∈ (s.planActions state w).1) :
    a.Driver = state.driver ∧ ∃ c, a.driverCall = some c := by
  rcases mem_planActions s state w a h with h | ⟨j, size, rfl⟩
  · obtain ⟨i, d, _, rfl⟩ := mem_sourceActions s state w a h
    exact ⟨(sourceAction_disk _ _ _ _ _ _ _).2.2, sourceAction_driverCall _ _ _ _ _ _ _⟩
  · exact ⟨rfl, _, rfl⟩

/-- When every element has an image, `filterMap` keeps every element. -/
theorem map_eq_filterMap_some {α β : Type} (f : α → Option β) (l : List α)
    (h : ∀ a ∈ l, ∃ b, f a = some b) : l.map f = (l.filterMap f).map some := by
  induction l with
  | nil => rfl
  | cons a l ih =>
    obtain ⟨b, hb⟩ := h a (by simp)
    rw [List.map_cons, List.filterMap_cons_some hb, List.map_cons, hb,
      ih (fun x hx => h x (by simp [hx]))]

/-- The planned actions and their driver calls correspond one to one. -/
theorem planActions_map_driverCall {σ : Type} (s : stepCreateDisk) (state : StateBag σ)
    (w : World σ) :
    (s.planActions state w).1.map ActionDisk.driverCall = (s.planCalls state w).map some :=
  map_eq_filterMap_some _ _ (fun a ha => (planActions_driver s state w a ha).2)

/-- There are as many planned driver calls as planned actions. -/
theorem planCalls_length {σ : Type} (s : stepCreateDisk) (state : StateBag σ) (w : World σ) :
    (s.planCalls state w).length = (s.planActions state w).1.length := by
  have h := congrArg List.length (planActions_map_driverCall s state w)
  simpa using h.symm

/-- The body of the first loop leaves the driver and the record of its calls alone. -/
theorem sourceAction_world {σ : Type} (s : stepCreateDisk) (name source_dir : String)
    (driver : Driver σ) (i : Nat) (d : String) (w : World σ) :
    (s.sourceAction name source_dir driver i d w).2.driverState = w.driverState ∧
      (s.sourceAction name source_dir driver i d w).2.calls = w.calls := by
  simp only [stepCreateDisk.sourceAction, stepCreateDisk.convertAction]
  split
  · exact ⟨rfl, rfl⟩
  · split
    · split <;> exact ⟨rfl, rfl⟩
    · exact ⟨rfl, rfl⟩

/-- The first loop leaves the driver and the record of its calls alone. -/
theorem sourceLoop_world {σ : Type} (s : stepCreateDisk) (name source_dir : String)
    (driver : Driver σ) (ds : List String) :
    ∀ (i : Nat) (acc : List (ActionDisk σ)) (w : World σ),
      (s.sourceLoop name source_dir driver i ds acc w).2.driverState = w.driverState ∧
        (s.sourceLoop name source_dir driver i ds acc w).2.calls = w.calls := by
  induction ds with
  | nil => intro i acc w; exact ⟨rfl, rfl⟩
  | cons d ds ih =>
    intro i acc w
    simp only [stepCreateDisk.sourceLoop]
    have h1 := ih (i + 1) (acc ++ [(s.sourceAction name source_dir driver i d w).1])
      (s.sourceAction name source_dir driver i d w).2
    have h2 := sourceAction_world s name source_dir driver i d w
    exact ⟨h1.1.trans h2.1, h1.2.trans h2.2⟩

/-- Planning makes no driver call. -/
theorem planActions_world {σ : Type} (s : stepCreateDisk) (state : StateBag σ) (w : World σ) :
    (s.planActions state w).2.driverState = w.driverState ∧
      (s.planActions state w).2.calls = w.calls := by
  simp only [stepCreateDisk.planActions, stepCreateDisk.sourceActions]
  exact sourceLoop_world s _ _ _ _ _ _ _

/-- A run of `stepCreateDisk` in which the first driver call to fail is call number `k`. -/
theorem run_halt {σ : Type} (s : stepCreateDisk) (state : StateBag σ) (w : World σ)
    (k : Nat) (e : String)
    (h : (state.driver.results (s.planCalls state w) w.driverState).take (k + 1) =
      List.replicate k none ++ [some e]) :
    (s.Run state w).1 = StepAction.ActionHalt ∧
      (s.Run state w).2.1 = { state with error := some ("error creating hard drive: " ++ e) } ∧
      (s.Run state w).2.2.calls = w.calls ++ (s.planCalls state w).take (k + 1) := by
  have hw := planActions_world s state w
  have := createLoop_halt state.driver e (s.planActions state w).1 (s.planCalls state w) k []
    state (s.planActions state w).2 (fun a ha => (planActions_driver s state w a ha).1)
    (planActions_map_driverCall s state w) (by rw [hw.1]; exact h)
  rw [hw.2] at this
  exact this

/-- A run of `stepCreateDisk` in which every driver call succeeds. -/
theorem run_continue {σ : Type} (s : stepCreateDisk) (state : StateBag σ) (w : World σ)
    (h : ∀ r ∈ state.driver.results (s.planCalls state w) w.driverState, r = none) :
    (s.Run state w).1 = StepAction.ActionContinue ∧
      (s.Run state w).2.1 =
        { state with
          qemu_disk_paths := some ((s.planActions state w).1.map (fun a => a.Disk.FullPath)) } ∧
      (s.Run state w).2.2.calls = w.calls ++ s.planCalls state w := by
  have hw := planActions_world s state w
  have := createLoop_continue state.driver (s.planActions state w).1 (s.planCalls state w) []
    state (s.planActions state w).2 (fun a ha => (planActions_driver s state w a ha).1)
    (planActions_map_driverCall s state w) (by rw [hw.1]; exact h)
  rw [hw.2] at this
  simpa using this

/-- There is one result for each call. -/
theorem results_length {σ : Type} (driver : Driver σ) (cs : List DriverCall) :
    ∀ st : σ, (driver.results cs st).length = cs.length := by
  induction cs with
  | nil => intro st; rfl
  | cons c cs ih => intro st; simp [Driver.results, ih]

/-- A first failure at call number `k` is a failure of one of the calls. -/
theorem first_failure_lt {σ : Type} (driver : Driver σ) (cs : List DriverCall) (st : σ)
    (k : Nat) (e : String)
    (h : (driver.results cs st).take (k + 1) = List.replicate k none ++ [some e]) :
    k < cs.length := by
  have h1 := congrArg List.length h
  simp only [List.length_take, results_length, List.length_append, List.length_replicate,
    List.length_singleton] at h1
  omega

/-- The loop of `stepResizeDisk.Run` when the first call to fail is call number `k`. -/
theorem resizeLoop_halt {σ : Type} (s : stepResizeDisk) (driver : Driver σ) (e : String) :
    ∀ (paths : List String) (k : Nat) (state : StateBag σ) (w : World σ),
      (driver.results (s.resizeCalls paths) w.driverState).take (k + 1) =
        List.replicate k none ++ [some e] →
      (s.resizeLoop driver paths state w).1 = StepAction.ActionHalt ∧
        (s.resizeLoop driver paths state w).2.1 =
          { state with error := some ("Error creating hard drive: " ++ e) } ∧
        (s.resizeLoop driver paths state w).2.2.calls =
          w.calls ++ (s.resizeCalls paths).take (k + 1) := by
  intro paths
  induction paths with
  | nil =>
    intro k state w hres
    simp [stepResizeDisk.resizeCalls, Driver.results] at hres
  | cons p rest ih =>
    intro k state w hres
    simp only [stepResizeDisk.resizeCalls, List.map_cons, Driver.results, Driver.issue,
      List.take_succ_cons] at hres
    cases k with
    | zero =>
      simp only [List.take_zero, List.replicate_zero, List.nil_append, List.cons.injEq,
        and_true] at hres
      simp only [stepResizeDisk.resizeLoop, World.callQemuImg, World.uiCall, hres]
      simp [stepResizeDisk.resizeCalls]
    | succ k =>
      simp only [List.replicate_succ, List.cons_append, List.cons.injEq] at hres
      simp only [stepResizeDisk.resizeLoop, World.callQemuImg, World.uiCall, hres.1]
      have := ih k state
        { driverState := (driver.QemuImg (s.buildResizeCommand p) w.driverState).2,
          calls := w.calls ++ [DriverCall.QemuImg (s.buildResizeCommand p)],
          ui := w.ui ++ [UiCall.Say ("Resizing hard drive " ++ p ++ " ...")],
          log := w.log } hres.2
      simpa [stepResizeDisk.resizeCalls] using this

/-- The loop of `stepResizeDisk.Run` when every call succeeds. -/
theorem resizeLoop_continue {σ : Type} (s : stepResizeDisk) (driver : Driver σ) :
    ∀ (paths : List String) (state : StateBag σ) (w : World σ),
      (∀ r ∈ driver.results (s.resizeCalls paths) w.driverState, r = none) →
      (s.resizeLoop driver paths state w).1 = StepAction.ActionContinue ∧
        (s.resizeLoop driver paths state w).2.1 = state ∧
        (s.resizeLoop driver paths state w).2.2.calls = w.calls ++ s.resizeCalls paths := by
  intro paths
  induction paths with
  | nil =>
    intro state w _
    simp [stepResizeDisk.resizeLoop, stepResizeDisk.resizeCalls]
  | cons p rest ih =>
    intro state w hres
    simp only [stepResizeDisk.resizeCalls, List.map_cons, Driver.results, Driver.issue,
      List.mem_cons, forall_eq_or_imp] at hres
    simp only [stepResizeDisk.resizeLoop, World.callQemuImg, World.uiCall, hres.1]
    have := ih state
      { driverState := (driver.QemuImg (s.buildResizeCommand p) w.driverState).2,
        calls := w.calls ++ [DriverCall.QemuImg (s.buildResizeCommand p)],
        ui := w.ui ++ [UiCall.Say ("Resizing hard drive " ++ p ++ " ...")],
        log := w.log } hres.2
    simpa [stepResizeDisk.resizeCalls] using this

/-! ## Failure and success of `stepCreateDisk.Run` -/

/-- C12: when the first driver call to fail is the one of the planned action `k`, that
action is one of the plan, `Run` returns `ActionHalt`, and the driver calls it has made
are those of the actions `0` to `k` in plan order, `k + 1` calls in all: no call is made
for a later action. -/
theorem run_halts_at_first_failure {σ : Type} (s : stepCreateDisk) (state : StateBag σ)
    (w : World σ) (k : Nat) (e : String)
    (h : (state.driver.results (s.planCalls state w) w.driverState).take (k + 1) =
      List.replicate k none ++ [some e]) :
    k < (s.planActions state w).1.length ∧
      (s.planActions state w).1.map ActionDisk.driverCall = (s.planCalls state w).map some ∧
      (s.Run state w).1 = StepAction.ActionHalt ∧
      (s.Run state w).2.2.calls = w.calls ++ (s.planCalls state w).take (k + 1) ∧
      (s.Run state w).2.2.calls.length = w.calls.length + (k + 1) := by
  have hk := first_failure_lt _ _ _ _ _ h
  have hr := run_halt s state w k e h
  refine ⟨planCalls_length s state w ▸ hk, planActions_map_driverCall s state w, hr.1, hr.2.2, ?_⟩
  rw [hr.2.2, List.length_append, List.length_take]
  omega

/-- C12 on one copied disk and two additional disks, over a driver whose second call
fails: two calls are made, the third never. -/
theorem run_halts_at_first_failure_witness :
    ((failState 1 "source.qcow2").driver.results
        (imageStep.planCalls (failState 1 "source.qcow2") failWorld) failWorld.driverState).take
          (1 + 1) = List.replicate 1 none ++ [some "boom"] ∧
      (imageStep.planActions (failState 1 "source.qcow2") failWorld).1.length = 3 ∧
      (imageStep.Run (failState 1 "source.qcow2") failWorld).1 = StepAction.ActionHalt ∧
      (imageStep.Run (failState 1 "source.qcow2") failWorld).2.2.calls =
        [DriverCall.Copy "source.qcow2" "target-0",
          DriverCall.QemuImg ["create", "-f", "qcow2", "target-1", "3M"]] :=
  ⟨by decide, by decide,
    (run_halts_at_first_failure imageStep (failState 1 "source.qcow2") failWorld 1 "boom"
      (by decide)).2.2.1,
    (run_halts_at_first_failure imageStep (failState 1 "source.qcow2") failWorld 1 "boom"
      (by decide)).2.2.2.1.trans (by decide)⟩

/-- C13, as the code has it: when the driver call of the planned action `k` fails, `Run`
returns `ActionHalt` before the statement that puts `qemu_disk_paths`, so the key keeps
the value it had before the run (it stays unset if it was unset). -/
theorem run_failure_publishes_nothing {σ : Type} (s : stepCreateDisk) (state : StateBag σ)
    (w : World σ) (k : Nat) (e : String)
    (h : (state.driver.results (s.planCalls state w) w.driverState).take (k + 1) =
      List.replicate k none ++ [some e]) :
    (s.Run state w).1 = StepAction.ActionHalt ∧
      (s.Run state w).2.1.qemu_disk_paths = state.qemu_disk_paths := by
  have hr := run_halt s state w k e h
  exact ⟨hr.1, by rw [hr.2.1]⟩

/-- C13 amended, on one copied disk and two additional disks over a driver whose second
call fails: the key `qemu_disk_paths` is still unset after the run. -/
theorem run_failure_publishes_nothing_witness :
    ((failState 1 "source.qcow2").driver.results
        (imageStep.planCalls (failState 1 "source.qcow2") failWorld) failWorld.driverState).take
          (1 + 1) = List.replicate 1 none ++ [some "boom"] ∧
      (imageStep.Run (failState 1 "source.qcow2") failWorld).1 = StepAction.ActionHalt ∧
      (imageStep.Run (failState 1 "source.qcow2") failWorld).2.1.qemu_disk_paths =
        (failState 1 "source.qcow2").qemu_disk_paths :=
  ⟨by decide,
    run_failure_publishes_nothing imageStep (failState 1 "source.qcow2") failWorld 1 "boom"
      (by decide)⟩

/-- C13 as stated fails: with one copied disk and two additional disks and a driver whose
second call (action index 1) fails, the run halts and `qemu_disk_paths` is not set at all,
so it is not the list of the two paths `target-0`, `target-1`. -/
theorem run_failure_paths_not_published :
    (failAt 1).results (imageStep.planCalls (failState 1 "source.qcow2") failWorld) 0 =
        [none, some "boom", none] ∧
      (imageStep.Run (failState 1 "source.qcow2") failWorld).1 = StepAction.ActionHalt ∧
      (imageStep.Run (failState 1 "source.qcow2") failWorld).2.1.qemu_disk_paths = none ∧
      (imageStep.Run (failState 1 "source.qcow2") failWorld).2.1.qemu_disk_paths ≠
        some ["target-0", "target-1"] := by
  decide

/-- C14: when every driver call succeeds, `Run` returns `ActionContinue`, leaves the key
`error` as it was, and puts under `qemu_disk_paths` the `FullPath` of every planned action
in plan order; the driver calls made are those of the planned actions, one for each, in
the same order. -/
theorem run_success {σ : Type} (s : stepCreateDisk) (state : StateBag σ) (w : World σ)
    (h : ∀ r ∈ state.driver.results (s.planCalls state w) w.driverState, r = none) :
    (s.Run state w).1 = StepAction.ActionContinue ∧
      (s.Run state w).2.1.error = state.error ∧
      (s.Run state w).2.1.qemu_disk_paths =
        some ((s.planActions state w).1.map (fun a => a.Disk.FullPath)) ∧
      (s.Run state w).2.2.calls = w.calls ++ s.planCalls state w ∧
      (s.planActions state w).1.map ActionDisk.driverCall = (s.planCalls state w).map some := by
  have hr := run_continue s state w h
  exact ⟨hr.1, by rw [hr.2.1], by rw [hr.2.1], hr.2.2, planActions_map_driverCall s state w⟩

/-- C14 on the ninth case of the test table: three converted disks and two additional
disks, all calls succeeding. -/
theorem run_success_witness :
    (∀ r ∈ (okState "output_archive").driver.results
        (manyDisksStep.planCalls (okState "output_archive") okWorld) okWorld.driverState,
        r = none) ∧
      (manyDisksStep.Run (okState "output_archive") okWorld).1 = StepAction.ActionContinue ∧
      (manyDisksStep.Run (okState "output_archive") okWorld).2.1.error = none ∧
      (manyDisksStep.Run (okState "output_archive") okWorld).2.1.qemu_disk_paths =
        some ["target-0", "target-1", "target-2", "target-3", "target-4"] ∧
      (manyDisksStep.Run (okState "output_archive") okWorld).2.2.calls =
        [DriverCall.QemuImg
            ["convert", "-O", "qcow2", "output_archive/source0.qcow2.extract", "target-0"],
          DriverCall.QemuImg
            ["convert", "-O", "qcow2", "output_archive/source1.qcow2.extract", "target-1"],
          DriverCall.QemuImg
            ["convert", "-O", "qcow2", "output_archive/source2.qcow2.extract", "target-2"],
          DriverCall.QemuImg ["create", "-f", "qcow2", "target-3", "3M"],
          DriverCall.QemuImg ["create", "-f", "qcow2", "target-4", "8M"]] :=
  ⟨by decide,
    (run_success manyDisksStep (okState "output_archive") okWorld (by decide)).1,
    (run_success manyDisksStep (okState "output_archive") okWorld (by decide)).2.1,
    (run_success manyDisksStep (okState "output_archive") okWorld (by decide)).2.2.1.trans
      (by decide),
    (run_success manyDisksStep (okState "output_archive") okWorld (by decide)).2.2.2.1.trans
      (by decide)⟩

/-! ## `stepResizeDisk.Run` -/

/-- C15: with `DiskImage` unset or `SkipResizeDisk` set, `stepResizeDisk.Run` on any path
list, empty or not, returns `ActionContinue` and leaves the state bag and the world as they
were: it makes no driver call and puts no `error`. -/
theorem resize_skipped {σ : Type} (s : stepResizeDisk) (state : StateBag σ) (w : World σ)
    (paths : List String) (hpaths : state.qemu_disk_paths = some paths)
    (hskip : s.DiskImage = false ∨ s.SkipResizeDisk = true) :
    s.Run state w = some (StepAction.ActionContinue, state, w) := by
  simp only [stepResizeDisk.Run, hpaths]
  rw [if_pos hskip]

/-- C15 on a step whose resize is switched off, with three paths and a driver that would
fail its first call: no call is recorded and no error is set. -/
theorem resize_skipped_witness :
    ({ failState 0 "x" with qemu_disk_paths := some ["target-0", "target-1", "target-2"] } :
        StateBag Nat).qemu_disk_paths = some ["target-0", "target-1", "target-2"] ∧
      (({ resizeStep with SkipResizeDisk := true } : stepResizeDisk).DiskImage = false ∨
        ({ resizeStep with SkipResizeDisk := true } : stepResizeDisk).SkipResizeDisk = true) ∧
      (stepResizeDisk.Run { resizeStep with SkipResizeDisk := true }
          { failState 0 "x" with qemu_disk_paths := some ["target-0", "target-1", "target-2"] }
          failWorld).map (fun r => (r.1, r.2.1.error, r.2.2.calls)) =
        some (StepAction.ActionContinue, none, []) :=
  ⟨rfl, by decide, by
    rw [resize_skipped { resizeStep with SkipResizeDisk := true }
      { failState 0 "x" with qemu_disk_paths := some ["target-0", "target-1", "target-2"] }
      failWorld ["target-0", "target-1", "target-2"] rfl (by decide)]
    rfl⟩

/-- C16: with `DiskImage` set and `SkipResizeDisk` unset, `stepResizeDisk.Run` calls
`QemuImg(buildResizeCommand(p))` for the paths in the order given. When every call succeeds
it has made one call for each path and returns `ActionContinue`; when the call for the path
at index `k` is the first to fail it has made the calls for the paths `0` to `k`, `k + 1`
calls in all and none for a later path, and returns `ActionHalt`. -/
theorem resize_run {σ : Type} (s : stepResizeDisk) (state : StateBag σ) (w : World σ)
    (paths : List String) (hpaths : state.qemu_disk_paths = some paths)
    (hImage : s.DiskImage = true) (hSkip : s.SkipResizeDisk = false) :
    ∃ r, s.Run state w = some r ∧
      ((∀ x ∈ state.driver.results (s.resizeCalls paths) w.driverState, x = none) →
        r.1 = StepAction.ActionContinue ∧
          r.2.2.calls = w.calls ++
            paths.map (fun p => DriverCall.QemuImg (s.buildResizeCommand p)) ∧
          r.2.2.calls.length = w.calls.length + paths.length) ∧
      ∀ (k : Nat) (e : String),
        (state.driver.results (s.resizeCalls paths) w.driverState).take (k + 1) =
          List.replicate k none ++ [some e] →
        k < paths.length ∧ r.1 = StepAction.ActionHalt ∧
          r.2.2.calls = w.calls ++
            (paths.take (k + 1)).map (fun p => DriverCall.QemuImg (s.buildResizeCommand p)) ∧
          r.2.2.calls.length = w.calls.length + (k + 1) := by
  refine ⟨s.resizeLoop state.driver paths state w, ?_, ?_, ?_⟩
  · simp [stepResizeDisk.Run, hpaths, hImage, hSkip]
  · intro h
    have hr := resizeLoop_continue s state.driver paths state w h
    refine ⟨hr.1, hr.2.2, ?_⟩
    rw [hr.2.2]
    simp [stepResizeDisk.resizeCalls]
  · intro k e h
    have hr := resizeLoop_halt s state.driver e paths k state w h
    have hk : k < paths.length := by
      have := first_failure_lt _ _ _ _ _ h
      simpa [stepResizeDisk.resizeCalls] using this
    refine ⟨hk, hr.1, ?_, ?_⟩
    · rw [hr.2.2, stepResizeDisk.resizeCalls, List.map_take]
    · rw [hr.2.2, List.length_append, List.length_take, stepResizeDisk.resizeCalls,
        List.length_map]
      omega

/-- C16 on three paths: over a driver whose second call fails the run halts after two
calls; over a driver that does not fail it makes the three calls and continues. -/
theorem resize_run_witness :
    (∃ r,
      stepResizeDisk.Run resizeStep
          { failState 1 "x" with qemu_disk_paths := some ["target-0", "target-1", "target-2"] }
          failWorld = some r ∧
        r.1 = StepAction.ActionHalt ∧
        r.2.2.calls =
          [DriverCall.QemuImg ["resize", "-f", "qcow2", "-foo", "target-0", "10G"],
            DriverCall.QemuImg ["resize", "-f", "qcow2", "-foo", "target-1", "10G"]]) ∧
      ∃ r,
        stepResizeDisk.Run resizeStep
            { failState 7 "x" with qemu_disk_paths := some ["target-0", "target-1", "target-2"] }
            failWorld = some r ∧
          r.1 = StepAction.ActionContinue ∧
          r.2.2.calls =
            [DriverCall.QemuImg ["resize", "-f", "qcow2", "-foo", "target-0", "10G"],
              DriverCall.QemuImg ["resize", "-f", "qcow2", "-foo", "target-1", "10G"],
              DriverCall.QemuImg ["resize", "-f", "qcow2", "-foo", "target-2", "10G"]] := by
  constructor
  · obtain ⟨r, hr, _, hfail⟩ := resize_run resizeStep
      { failState 1 "x" with qemu_disk_paths := some ["target-0", "target-1", "target-2"] }
      failWorld ["target-0", "target-1", "target-2"] rfl (by decide) (by decide)
    have h := hfail 1 "boom" (by decide)
    exact ⟨r, hr, h.2.1, h.2.2.1.trans (by decide)⟩
  · obtain ⟨r, hr, hok, _⟩ := resize_run resizeStep
      { failState 7 "x" with qemu_disk_paths := some ["target-0", "target-1", "target-2"] }
      failWorld ["target-0", "target-1", "target-2"] rfl (by decide) (by decide)
    have h := hok (by decide)
    exact ⟨r, hr, h.1, h.2.1.trans (by decide)⟩

/-! ## Errors -/

/-- C17: when the first driver call to fail returns the error `e`, `stepCreateDisk.Run`
puts under `error` the message `error creating hard drive: ` followed by `e`, and
`stepResizeDisk.Run` (not skipped) puts the message `Error creating hard drive: `, with a
capital E, followed by `e`. -/
theorem run_error_messages {σ : Type} (k : Nat) (e : String) :
    (∀ (s : stepCreateDisk) (state : StateBag σ) (w : World σ),
      (state.driver.results (s.planCalls state w) w.driverState).take (k + 1) =
        List.replicate k none ++ [some e] →
      (s.Run state w).2.1.error = some ("error creating hard drive: " ++ e)) ∧
    ∀ (s : stepResizeDisk) (state : StateBag σ) (w : World σ) (paths : List String),
      state.qemu_disk_paths = some paths → s.DiskImage = true → s.SkipResizeDisk = false →
      (state.driver.results (s.resizeCalls paths) w.driverState).take (k + 1) =
        List.replicate k none ++ [some e] →
      ∃ r, s.Run state w = some r ∧ r.2.1.error = some ("Error creating hard drive: " ++ e) := by
  constructor
  · intro s state w h
    rw [(run_halt s state w k e h).2.1]
  · intro s state w paths hpaths hImage hSkip h
    refine ⟨s.resizeLoop state.driver paths state w, ?_, ?_⟩
    · simp [stepResizeDisk.Run, hpaths, hImage, hSkip]
    · rw [(resizeLoop_halt s state.driver e paths k state w h).2.1]

/-- C17 over a driver whose second call fails with the text `boom`. -/
theorem run_error_messages_witness :
    (imageStep.Run (failState 1 "source.qcow2") failWorld).2.1.error =
        some "error creating hard drive: boom" ∧
      ∃ r,
        stepResizeDisk.Run resizeStep
            { failState 1 "x" with qemu_disk_paths := some ["target-0", "target-1", "target-2"] }
            failWorld = some r ∧
          r.2.1.error = some "Error creating hard drive: boom" :=
  ⟨(run_error_messages 1 "boom").1 imageStep (failState 1 "source.qcow2") failWorld (by decide),
    (run_error_messages 1 "boom").2 resizeStep
      { failState 1 "x" with qemu_disk_paths := some ["target-0", "target-1", "target-2"] }
      failWorld ["target-0", "target-1", "target-2"] rfl (by decide) (by decide) (by decide)⟩

/-- C18: for an action whose type is none of `copy`, `create`, `convert`, `backing`,
`RunCommand` returns the error `unknown action` and leaves the world as it was: no driver
call is made. -/
theorem runCommand_unknown_action {σ : Type} (d : ActionDisk σ) (w : World σ)
    (h1 : d.ActionType ≠ "copy") (h2 : d.ActionType ≠ "create")
    (h3 : d.ActionType ≠ "convert") (h4 : d.ActionType ≠ "backing") :
    d.RunCommand w = (some "unknown action", w) := by
  simp [ActionDisk.RunCommand, h1, h2, h3, h4, errorsNew]

/-- C18 on the empty action type and on the spelling `Copy`. -/
theorem runCommand_unknown_action_witness :
    (testAction 0 "").RunCommand failWorld = (some "unknown action", failWorld) ∧
      (testAction 0 "Copy").RunCommand failWorld = (some "unknown action", failWorld) :=
  ⟨runCommand_unknown_action (testAction 0 "") failWorld (by decide) (by decide) (by decide)
      (by decide),
    runCommand_unknown_action (testAction 0 "Copy") failWorld (by decide) (by decide)
      (by decide) (by decide)⟩

/-! ## Source paths and sizes of the planned disks -/

/-- The source-derived actions are the first actions of the plan. -/
theorem planActions_take_sources {σ : Type} (s : stepCreateDisk) (state : StateBag σ)
    (w : World σ) :
    (s.planActions state w).1.take (s.disksOrder state.iso_path).length =
      (s.sourceActions state w).1 := by
  rw [planActions_eq, ← sourceActions_length s state w, List.take_left]

/-- C11, as the code has it: with `ManyDisks` set the source-derived actions are one for
each element of `DisksOrder`, in that order, the i-th with `Source` equal to
`filepath.Join(iso_path, DisksOrder[i])`. With `ManyDisks` unset there is exactly one
source-derived action, whatever `DisksOrder` holds, and its `Source` is
`filepath.Join("", iso_path)`: the empty string when `iso_path` is empty, otherwise
`filepath.Clean(iso_path)`, which is the `iso_path` itself when that is a clean path. -/
theorem run_sources {σ : Type} (s : stepCreateDisk) (state : StateBag σ) (w : World σ) :
    (s.ManyDisks = true →
      (s.planActions state w).1.take s.DisksOrder.length = (s.sourceActions state w).1 ∧
        (s.sourceActions state w).1.length = s.DisksOrder.length ∧
        ∀ (i : Nat) (d : String), s.DisksOrder[i]? = some d →
          ∃ a, (s.sourceActions state w).1[i]? = some a ∧
            a.Disk.Source = Join state.iso_path d) ∧
    (s.ManyDisks = false →
      ∃ a, (s.planActions state w).1.take 1 = [a] ∧ (s.sourceActions state w).1 = [a] ∧
        a.Disk.Source = Join "" state.iso_path ∧
        (state.iso_path = "" → a.Disk.Source = "") ∧
        (state.iso_path ≠ "" → a.Disk.Source = Clean state.iso_path) ∧
        (Clean state.iso_path = state.iso_path → a.Disk.Source = state.iso_path)) := by
  constructor
  · intro hM
    have hd : s.disksOrder state.iso_path = s.DisksOrder := by simp [stepCreateDisk.disksOrder, hM]
    have hs : s.source_dir state.iso_path = state.iso_path := by
      simp [stepCreateDisk.source_dir, hM]
    refine ⟨hd ▸ planActions_take_sources s state w, hd ▸ sourceActions_length s state w, ?_⟩
    intro i d hi
    rw [sourceActions_getElem? s state w w i, hd, hi]
    exact ⟨_, rfl, by rw [(sourceAction_disk _ _ _ _ _ _ _).1, hs]⟩
  · intro hM
    have hd : s.disksOrder state.iso_path = [state.iso_path] := by
      simp [stepCreateDisk.disksOrder, hM]
    have hs : s.source_dir state.iso_path = "" := by simp [stepCreateDisk.source_dir, hM]
    have h1 : (s.sourceActions state w).1 =
        [(s.sourceAction s.VMName "" state.driver 0 state.iso_path
          (w.uiCall (UiCall.Say "Creating required virtual machine disks"))).1] := by
      simp [stepCreateDisk.sourceActions, hd, hs, stepCreateDisk.sourceLoop]
    have h2 := planActions_take_sources s state w
    rw [hd, h1] at h2
    have hsrc : (s.sourceAction s.VMName "" state.driver 0 state.iso_path
        (w.uiCall (UiCall.Say "Creating required virtual machine disks"))).1.Disk.Source =
        Join "" state.iso_path := by
      rw [(sourceAction_disk _ _ _ _ _ _ _).1]
    refine ⟨_, h2, h1, hsrc, ?_, ?_, ?_⟩
    · intro h0
      rw [hsrc, h0]
      rfl
    · intro h0
      rw [hsrc]
      simp [Join, h0]
    · intro hc
      have h0 : state.iso_path ≠ "" := by
        intro h0
        rw [h0] at hc
        exact absurd hc (by decide)
      rw [hsrc]
      simp [Join, h0, hc]

/-- C11 amended, on the test table: three extracted disks under `output_archive` with
`ManyDisks` set, and the single source `source.qcow2`, a clean path, with `ManyDisks`
unset. -/
theorem run_sources_witness :
    (manyDisksStep.ManyDisks = true ∧
      manyDisksStep.DisksOrder[1]? = some "source1.qcow2.extract" ∧
      ∃ a, (manyDisksStep.sourceActions (okState "output_archive") okWorld).1[1]? = some a ∧
        a.Disk.Source = Join (okState "output_archive").iso_path "source1.qcow2.extract") ∧
    (imageStep.ManyDisks = false ∧
      Clean (okState "source.qcow2").iso_path = (okState "source.qcow2").iso_path ∧
      ∃ a, (imageStep.sourceActions (okState "source.qcow2") okWorld).1 = [a] ∧
        a.Disk.Source = (okState "source.qcow2").iso_path) :=
  ⟨⟨by decide, by decide,
      ((run_sources manyDisksStep (okState "output_archive") okWorld).1 (by decide)).2.2 1
        "source1.qcow2.extract" (by decide)⟩,
    by decide, by decide,
    (((run_sources imageStep (okState "source.qcow2") okWorld).2 (by decide)).imp
      (fun _ h => ⟨h.2.1, h.2.2.2.2.2 (by decide)⟩))⟩

/-- C11 as stated fails: with `ManyDisks` unset and the `iso_path` `./source.qcow2`, the
`Source` of the one source-derived action is `source.qcow2`, not the `iso_path` itself. -/
theorem run_source_not_iso_path :
    rawStep.ManyDisks = false ∧
      (rawStep.sourceActions (okState "./source.qcow2") okWorld).1.map
        (fun a => a.Disk.Source) = ["source.qcow2"] ∧
      (rawStep.sourceActions (okState "./source.qcow2") okWorld).1.map
        (fun a => a.Disk.Source) ≠ [(okState "./source.qcow2").iso_path] := by
  decide

/-- The planned action for the additional disk at index `j`. -/
theorem planActions_getElem?_additional {σ : Type} (s : stepCreateDisk) (state : StateBag σ)
    (w : World σ) (j : Nat) (size : String) (h : s.AdditionalDiskSize[j]? = some size) :
    (s.planActions state w).1[(s.disksOrder state.iso_path).length + j]? =
      some (s.createAction
        { FullPath := s.get_target_path s.VMName ((s.disksOrder state.iso_path).length + j),
          Size := size, Format := s.Format } state.driver) := by
  have hle : (s.sourceActions state w).1.length ≤ (s.disksOrder state.iso_path).length + j := by
    rw [sourceActions_length]; omega
  rw [planActions_eq, List.getElem?_append_right hle, sourceActions_length,
    Nat.add_sub_cancel_left, List.getElem?_map, List.getElem?_enumFrom, h]
  simp

/-- C20, as the code has it: every planned action of type `convert`, `copy` or `backing`
carries a disk whose `Size` is the step's `DiskSize`, empty only when `DiskSize` is; that
size does not enter the driver call of the action. Every source-derived action, of
whatever type, carries `DiskSize`, and a source-derived `create` action passes it as the
last token of its command; the `create` action of the additional disk at index `j` carries
the element `j` of `AdditionalDiskSize` and passes it as the last token of its command. So
a planned `create` action carries `DiskSize` or an element of `AdditionalDiskSize`. -/
theorem run_sizes {σ : Type} (s : stepCreateDisk) (state : StateBag σ) (w : World σ) :
    (∀ a ∈ (s.planActions state w).1,
      a.ActionType = "convert" ∨ a.ActionType = "copy" ∨ a.ActionType = "backing" →
      a.Disk.Size = s.DiskSize ∧
        ∀ size : String,
          ActionDisk.driverCall { a with Disk := { a.Disk with Size := size } } =
            a.driverCall) ∧
      (∀ (i : Nat) (d : String), (s.disksOrder state.iso_path)[i]? = some d →
        ∃ a, (s.planActions state w).1[i]? = some a ∧ a.Disk.Size = s.DiskSize ∧
          (a.ActionType = "create" →
            a.driverCall = some (DriverCall.QemuImg
              (["create", "-f", s.Format] ++ s.QemuImgArgs.Create ++
                [a.Disk.FullPath, s.DiskSize])))) ∧
      (∀ (j : Nat) (size : String), s.AdditionalDiskSize[j]? = some size →
        ∃ a, (s.planActions state w).1[(s.disksOrder state.iso_path).length + j]? = some a ∧
          a.ActionType = "create" ∧ a.Disk.Size = size ∧
          a.driverCall = some (DriverCall.QemuImg
            (["create", "-f", s.Format] ++ s.QemuImgArgs.Create ++ [a.Disk.FullPath, size]))) ∧
      ∀ a ∈ (s.planActions state w).1, a.ActionType = "create" →
        a.Disk.Size = s.DiskSize ∨ a.Disk.Size ∈ s.AdditionalDiskSize := by
  refine ⟨?_, ?_, ?_, ?_⟩
  · intro a ha hty
    have hne : a.ActionType ≠ "create" := by
      rcases hty with h | h | h <;> rw [h] <;> decide
    have hnc : ∀ size : String,
        ActionDisk.driverCall { a with Disk := { a.Disk with Size := size } } = a.driverCall := by
      intro size
      simp only [ActionDisk.driverCall, hne, ↓reduceIte]
      rfl
    rcases mem_planActions s state w a ha with h | ⟨j, size, rfl⟩
    · obtain ⟨i, d, _, rfl⟩ := mem_sourceActions s state w a h
      exact ⟨by rw [(sourceAction_disk _ _ _ _ _ _ _).1], hnc⟩
    · exact absurd rfl hne
  · intro i d hd
    have hdisk := sourceAction_disk s s.VMName (s.source_dir state.iso_path) state.driver i d w
    refine ⟨_, planActions_getElem?_source s state w i d hd, by rw [hdisk.1], ?_⟩
    intro hty
    simp only [ActionDisk.driverCall, hty, ActionDisk.BuildCreateCommand, hdisk.1, hdisk.2.1]
    rfl
  · intro j size hj
    exact ⟨_, planActions_getElem?_additional s state w j size hj, rfl, rfl, rfl⟩
  · intro a ha _
    rw [planActions_eq] at ha
    rcases List.mem_append.1 ha with h | h
    · obtain ⟨i, d, _, rfl⟩ := mem_sourceActions s state w a h
      exact Or.inl (by rw [(sourceAction_disk _ _ _ _ _ _ _).1])
    · obtain ⟨p, hp, rfl⟩ := List.mem_map.1 h
      right
      obtain ⟨i, x⟩ := p
      have hx := (List.mem_enumFrom hp).2.2
      simp only [stepCreateDisk.createAction]
      rw [hx]
      exact List.getElem_mem _

/-- C20 amended, on the fifth case of the test table: the backing action carries the
`DiskSize` of the step, `1M`, and the `create` actions of the two additional disks carry
`3M` and `8M`; on the second case, the source-derived `create` action carries `4M`. -/
theorem run_sizes_witness :
    (∃ a, (backingStep.planActions (okState "source.qcow2") okWorld).1[0]? = some a ∧
      (a.ActionType = "convert" ∨ a.ActionType = "copy" ∨ a.ActionType = "backing") ∧
      a.Disk.Size = backingStep.DiskSize) ∧
    (backingStep.AdditionalDiskSize[1]? = some "8M" ∧
      ∃ a, (backingStep.planActions (okState "source.qcow2") okWorld).1[
          (backingStep.disksOrder (okState "source.qcow2").iso_path).length + 1]? = some a ∧
        a.ActionType = "create" ∧ a.Disk.Size = "8M" ∧
        a.driverCall = some (DriverCall.QemuImg
          (["create", "-f", backingStep.Format] ++ backingStep.QemuImgArgs.Create ++
            [a.Disk.FullPath, "8M"]))) ∧
    ((rawStep.disksOrder (okState "source.qcow2").iso_path)[0]? = some "source.qcow2" ∧
      ∃ a, (rawStep.planActions (okState "source.qcow2") okWorld).1[0]? = some a ∧
        a.Disk.Size = rawStep.DiskSize ∧
        (a.ActionType = "create" →
          a.driverCall = some (DriverCall.QemuImg
            (["create", "-f", rawStep.Format] ++ rawStep.QemuImgArgs.Create ++
              [a.Disk.FullPath, rawStep.DiskSize])))) ∧
    (rawStep.planActions (okState "source.qcow2") okWorld).1.map
        (fun a => (a.ActionType, a.Disk.Size, a.driverCall)) =
      [("create", "4M", some (DriverCall.QemuImg ["create", "-f", "raw", "target-0", "4M"]))] := by
  refine ⟨?_, ⟨by decide,
    (run_sizes backingStep (okState "source.qcow2") okWorld).2.2.1 1 "8M" (by decide)⟩,
    ⟨by decide,
      (run_sizes rawStep (okState "source.qcow2") okWorld).2.1 0 "source.qcow2" (by decide)⟩,
    by decide⟩
  cases h : (backingStep.planActions (okState "source.qcow2") okWorld).1[0]? with
  | none =>
    have hs : ((backingStep.planActions (okState "source.qcow2") okWorld).1[0]?).isSome = true := by
      decide
    rw [h] at hs
    exact absurd hs (by decide)
  | some a =>
    have hty : a.ActionType = "backing" := by
      have : ((backingStep.planActions (okState "source.qcow2") okWorld).1[0]?).map
          (fun a => a.ActionType) = some "backing" := by decide
      rw [h] at this
      simpa using this
    exact ⟨a, rfl, Or.inr (Or.inr hty),
      ((run_sizes backingStep (okState "source.qcow2") okWorld).1 a
        (List.mem_iff_getElem?.2 ⟨0, h⟩) (Or.inr (Or.inr hty))).1⟩

/-- C20 as stated fails: in the fifth case of the test table the planned `backing` action
carries the size `1M`, not the empty string. -/
theorem run_backing_carries_size :
    (backingStep.planActions (okState "source.qcow2") okWorld).1.map
        (fun a => (a.ActionType, a.Disk.Size)) =
      [("backing", "1M"), ("create", "3M"), ("create", "8M")] := by
  decide

/-! ## The last element of a cleaned path -/

/-- A prefix of a path that is empty or ends with a separator: what follows it starts a
path element. -/
theorem boundary_tail (a : Char) (q : List Char) (h : (a :: q).getLast? = some '/') :
    q = [] ∨ q.getLast? = some '/' := by
  cases q with
  | nil => exact Or.inl rfl
  | cons b q => right; simpa [List.getLast?_cons_cons] using h

/-- Every path splits into a prefix that is empty or ends with a separator and a last
element without separator. -/
theorem split_last_element (l : List Char) :
    ∃ q v : List Char, l = q ++ v ∧ (q = [] ∨ q.getLast? = some '/') ∧ ∀ c ∈ v, c ≠ '/' := by
  induction l with
  | nil => exact ⟨[], [], rfl, Or.inl rfl, by simp⟩
  | cons a l ih =>
    obtain ⟨q, v, hl, hq, hv⟩ := ih
    cases q with
    | nil =>
      by_cases ha : a = '/'
      · exact ⟨[a], v, by simp [hl], Or.inr (by simp [ha]), hv⟩
      · refine ⟨[], a :: v, by simp [hl], Or.inl rfl, ?_⟩
        intro c hc
        rcases List.mem_cons.1 hc with rfl | hc
        · exact ha
        · exact hv c hc
    | cons b q =>
      refine ⟨a :: b :: q, v, by simp [hl], Or.inr ?_, hv⟩
      rcases hq with hq | hq
      · simp at hq
      · simpa [List.getLast?_cons_cons] using hq

/-- Dropping the first element of a path whose prefix ends with a separator leaves a
prefix that ends with a separator, and the last element. -/
theorem dropWhile_append_boundary (e : List Char) :
    ∀ q : List Char, q.getLast? = some '/' →
      ∃ q2, (q ++ e).dropWhile (fun x => !isPathSeparator x) = q2 ++ e ∧
        q2.getLast? = some '/' := by
  intro q
  induction q with
  | nil => intro h; simp at h
  | cons a q ih =>
    intro h
    by_cases ha : isPathSeparator a = true
    · exact ⟨a :: q, by simp [List.dropWhile_cons, ha], h⟩
    · have hq : q ≠ [] := by
        rintro rfl
        simp at h
        exact ha (by simp [h, isPathSeparator])
      have hq2 : q.getLast? = some '/' := by
        rcases boundary_tail a q h with h0 | h0
        · exact absurd h0 hq
        · exact h0
      obtain ⟨q2, h1, h2⟩ := ih hq2
      exact ⟨q2, by simpa [List.dropWhile_cons, ha] using h1, h2⟩

/-- The main loop of `filepath.Clean` returns its buffer when nothing is left to read. -/
theorem cleanLoop_nil (rooted : Bool) (fuel : Nat) (out : List Char) (dotdot : Nat) :
    cleanLoop rooted fuel [] out dotdot = out := by
  cases fuel <;> rfl

/-- The main loop of `filepath.Clean`, started where a path element starts, ends its
output with the last element of the path when that element is neither `.` nor `..`. -/
theorem cleanLoop_ends (rooted : Bool) (e : List Char) (he : ∀ c ∈ e, c ≠ '/')
    (x : Char) (hx : x ∈ e) (hxd : x ≠ '.') (fuel : Nat) :
    ∀ (q out : List Char) (dotdot : Nat), (q = [] ∨ q.getLast? = some '/') →
      (q ++ e).length ≤ fuel → ∃ A, cleanLoop rooted fuel (q ++ e) out dotdot = e.reverse ++ A := by
  have hend : ∀ l : List Char, (∀ y ∈ l, y ≠ '/') → (endOrSep l = true ↔ l = []) := by
    intro l hl
    cases l with
    | nil => simp [endOrSep]
    | cons a l => simpa [endOrSep, isPathSeparator] using hl a (by simp)
  have hene : e ≠ [] := by rintro rfl; simp at hx
  induction fuel with
  | zero =>
    intro q out dotdot _ hlen
    have : q ++ e = [] := List.length_eq_zero.1 (Nat.le_zero.1 hlen)
    simp [hene] at this
  | succ fuel ih =>
    intro q out dotdot hq hlen
    cases q with
    | nil =>
      cases e with
      | nil => exact absurd rfl hene
      | cons c rest =>
        have hc : isPathSeparator c = false := by simpa [isPathSeparator] using he c (by simp)
        have hrest : ∀ y ∈ rest, y ≠ '/' := fun y hy => he y (by simp [hy])
        have h1 : ¬ (c = '.' ∧ endOrSep rest = true) := by
          rintro ⟨rfl, h⟩
          rw [hend rest hrest] at h
          subst h
          simp at hx
          exact hxd hx
        have h2 : ¬ (c = '.' ∧ rest.head? = some '.' ∧ endOrSep rest.tail = true) := by
          rintro ⟨rfl, hh, h⟩
          cases rest with
          | nil => simp at hh
          | cons b rest2 =>
            simp at hh
            subst hh
            simp only [List.tail_cons] at h
            rw [hend rest2 (fun y hy => hrest y (by simp [hy]))] at h
            subst h
            simp at hx
            exact hxd hx
        have htd := takeWhile_notSep (c :: rest) he
        simp only [List.nil_append, cleanLoop, hc, h1, h2, htd.1, htd.2, cleanLoop_nil]
        exact ⟨_, rfl⟩
    | cons c q =>
      have hq1 : (c :: q).getLast? = some '/' := by
        rcases hq with h | h
        · simp at h
        · exact h
      have hqt := boundary_tail c q hq1
      have hlen1 : (q ++ e).length ≤ fuel := by simpa using hlen
      obtain ⟨r, hr⟩ : ∃ r, r = q ++ e := ⟨_, rfl⟩
      rw [List.cons_append, ← hr]
      simp only [cleanLoop]
      split
      · subst hr; exact ih q _ _ hqt hlen1
      · split
        · subst hr; exact ih q _ _ hqt hlen1
        · split
          · rename_i _ _ h3
            subst hr
            have hqne : q ≠ [] := by
              rintro rfl
              rw [h3.1] at hq1
              simp at hq1
            cases q with
            | nil => exact absurd rfl hqne
            | cons b q2 =>
              have hq2 := boundary_tail b q2 (by
                rcases hqt with h | h
                · simp at h
                · exact h)
              have hlen2 : (q2 ++ e).length ≤ fuel := by
                have := hlen1
                simp only [List.cons_append, List.length_cons, List.length_append] at this ⊢
                omega
              simp only [List.cons_append, List.tail_cons]
              split
              · exact ih q2 _ _ hq2 hlen2
              · split
                · exact ih q2 _ _ hq2 hlen2
                · exact ih q2 _ _ hq2 hlen2
          · rename_i hsep _ _
            subst hr
            have hc : (!isPathSeparator c) = true := by simpa using hsep
            obtain ⟨q2, hd1, hd2⟩ := dropWhile_append_boundary e (c :: q) hq1
            have hlen3 : (q2 ++ e).length ≤ fuel := by
              rw [← hd1, List.cons_append, List.dropWhile_cons, if_pos hc]
              exact Nat.le_trans (dropWhile_notSep_length _) hlen1
            rw [List.cons_append] at hd1
            rw [hd1]
            exact ih q2 _ _ (Or.inr hd2) hlen3

/-- The result of `filepath.Clean` ends with the last element of the path when that
element is neither `.` nor `..`. -/
theorem clean_ends (path : String) (q e : List Char) (hp : path.data = q ++ e)
    (hq : q = [] ∨ q.getLast? = some '/') (he : ∀ c ∈ e, c ≠ '/')
    (x : Char) (hx : x ∈ e) (hxd : x ≠ '.') : ∃ A, (Clean path).data = A ++ e := by
  have hene : e ≠ [] := by rintro rfl; simp at hx
  have hres : ∀ out A : List Char, out = e.reverse ++ A →
      (if out.length = 0 then "." else (⟨out.reverse⟩ : String)).data = A.reverse ++ e := by
    intro out A h
    have : out.length ≠ 0 := by
      rw [h]
      simp [hene]
    rw [if_neg this, h]
    simp
  unfold Clean
  cases hd : path.data with
  | nil =>
    rw [hd] at hp
    have : q ++ e = [] := hp.symm
    simp [hene] at this
  | cons c rest =>
    rw [hd] at hp
    simp only
    by_cases hc : isPathSeparator c = true
    · simp only [hc, ↓reduceIte]
      cases q with
      | nil =>
        rw [List.nil_append] at hp
        have := he c (by rw [← hp]; simp)
        simp [isPathSeparator] at hc
        exact absurd hc this
      | cons b q =>
        have hq1 : (b :: q).getLast? = some '/' := by
          rcases hq with h | h
          · simp at h
          · exact h
        simp only [List.cons_append, List.cons.injEq] at hp
        obtain ⟨A, hA⟩ := cleanLoop_ends true e he x hx hxd (rest.length + 1) q ['/'] 1
          (boundary_tail b q hq1) (by rw [← hp.2]; omega)
        rw [← hp.2] at hA
        exact ⟨_, hres _ _ hA⟩
    · simp only [hc, Bool.false_eq_true, ↓reduceIte]
      obtain ⟨A, hA⟩ := cleanLoop_ends false e he x hx hxd (rest.length + 2) q [] 0 hq
        (by rw [← hp]; simp)
      rw [← hp] at hA
      exact ⟨_, hres _ _ hA⟩

/-! ## Decimal digits -/

/-- A property of the ten decimal digits holds for every digit of a number. -/
theorem toDigitsCore_forall (P : Char → Prop) (hP : ∀ k < 10, P (Nat.digitChar k)) (f : Nat) :
    ∀ (n : Nat) (ds : List Char), (∀ c ∈ ds, P c) → ∀ c ∈ Nat.toDigitsCore 10 f n ds, P c := by
  induction f with
  | zero => intro n ds h; simpa [Nat.toDigitsCore] using h
  | succ f ih =>
    intro n ds h
    simp only [Nat.toDigitsCore]
    have h2 : ∀ c ∈ Nat.digitChar (n % 10) :: ds, P c := by
      intro c hc
      rcases List.mem_cons.1 hc with rfl | hc
      · exact hP _ (Nat.mod_lt _ (by decide))
      · exact h c hc
    split
    · exact h2
    · exact ih _ _ h2

/-- The text of `%d` contains no hyphen. -/
theorem repr_ne_hyphen (n : Nat) : ∀ c ∈ (toString n).data, c ≠ '-' := by
  show ∀ c ∈ (Nat.repr n).data, c ≠ '-'
  simp only [Nat.repr, Nat.toDigits, List.asString]
  exact toDigitsCore_forall (fun c => c ≠ '-') (by decide) _ _ _ (by simp)

/-- Reading the decimal digits of a number back gives the number. -/
theorem toDigitsCore_value (f : Nat) :
    ∀ (n : Nat) (ds : List Char), n < f →
      (Nat.toDigitsCore 10 f n ds).foldl (fun acc c => acc * 10 + (c.toNat - 48)) 0 =
        ds.foldl (fun acc c => acc * 10 + (c.toNat - 48)) n := by
  have hdigit : ∀ k < 10, (Nat.digitChar k).toNat - 48 = k := by decide
  induction f with
  | zero => intro n ds h; omega
  | succ f ih =>
    intro n ds h
    simp only [Nat.toDigitsCore]
    split
    · rename_i h0
      have hn : n < 10 := by
        by_contra hge
        have : 1 ≤ n / 10 := (Nat.le_div_iff_mul_le (by decide)).2 (by omega)
        omega
      simp only [List.foldl_cons, Nat.zero_mul, Nat.zero_add]
      rw [Nat.mod_eq_of_lt hn, hdigit n hn]
    · rename_i h0
      have hlt : n / 10 < f := by
        have : n / 10 < n := Nat.div_lt_self (by
          by_contra h1
          have : n = 0 := by omega
          subst this
          simp at h0) (by decide)
        omega
      rw [ih (n / 10) _ hlt]
      simp only [List.foldl_cons]
      rw [hdigit _ (Nat.mod_lt _ (by decide)), Nat.div_add_mod' n 10]

/-- Two numbers with the same `%d` text are equal. -/
theorem toString_nat_injective (n m : Nat) (h : toString n = toString m) : n = m := by
  have h1 : (Nat.repr n).data = (Nat.repr m).data := congrArg String.data h
  simp only [Nat.repr, Nat.toDigits, List.asString] at h1
  have hn := toDigitsCore_value (n + 1) n [] (Nat.lt_succ_self n)
  have hm := toDigitsCore_value (m + 1) m [] (Nat.lt_succ_self m)
  rw [h1] at hn
  simp only [List.foldl_nil] at hn hm
  exact hn.symm.trans hm

/-- What follows the last hyphen of a text is determined by the text. -/
theorem after_last_hyphen (d1 d2 : List Char) (h1 : ∀ c ∈ d1, c ≠ '-')
    (h2 : ∀ c ∈ d2, c ≠ '-') :
    ∀ X Y : List Char, X ++ '-' :: d1 = Y ++ '-' :: d2 → d1 = d2 := by
  intro X
  induction X with
  | nil =>
    intro Y h
    cases Y with
    | nil => simpa using h
    | cons y Y =>
      simp only [List.nil_append, List.cons_append, List.cons.injEq] at h
      exact absurd rfl (h1 '-' (by rw [h.2]; simp))
  | cons a X ih =>
    intro Y h
    cases Y with
    | nil =>
      simp only [List.nil_append, List.cons_append, List.cons.injEq] at h
      exact absurd rfl (h2 '-' (by rw [← h.2]; simp))
    | cons y Y =>
      simp only [List.cons_append, List.cons.injEq] at h
      exact ih Y h.2

/-! ## Target paths are distinct -/

/-- Every target path ends with the last element of the machine name, a hyphen and the
decimal digits of the index. -/
theorem get_target_path_ends (s : stepCreateDisk) (name : String) :
    ∃ v : List Char, ∀ i : Nat, ∃ A : List Char,
      (s.get_target_path name i).data = A ++ (v ++ '-' :: (toString i).data) := by
  obtain ⟨q, v, hname, hq, hv⟩ := split_last_element name.data
  refine ⟨v, fun i => ?_⟩
  have he : ∀ c ∈ v ++ '-' :: (toString i).data, c ≠ '/' := by
    intro c hc
    rcases List.mem_append.1 hc with hc | hc
    · exact hv c hc
    · rcases List.mem_cons.1 hc with rfl | hc
      · decide
      · exact repr_ne_slash i c hc
  have hx : '-' ∈ v ++ '-' :: (toString i).data := by simp
  unfold stepCreateDisk.get_target_path
  by_cases hO : s.OutputDir = ""
  · rw [hO, join_empty_sprintf]
    exact clean_ends _ q _ (by rw [sprintfNameIndex_data, hname, List.append_assoc]) hq he
      '-' hx (by decide)
  · have hJ : Join s.OutputDir (sprintfNameIndex name i) =
        Clean (s.OutputDir ++ "/" ++ sprintfNameIndex name i) := by
      simp [Join, hO]
    rw [hJ]
    refine clean_ends _ (s.OutputDir.data ++ '/' :: q) _ ?_ (Or.inr ?_) he '-' hx (by decide)
    · simp [String.data_append, sprintfNameIndex_data, hname]
    · rcases hq with rfl | hq
      · simp
      · cases q with
        | nil => simp at hq
        | cons b q => simp [List.getLast?_append, List.getLast?_cons_cons, hq]

/-- Target paths are never empty, and those of different indices are different. -/
theorem get_target_path_injective (s : stepCreateDisk) (name : String) :
    (∀ i : Nat, s.get_target_path name i ≠ "") ∧
      ∀ i j : Nat, s.get_target_path name i = s.get_target_path name j → i = j := by
  obtain ⟨v, hv⟩ := get_target_path_ends s name
  constructor
  · intro i h
    obtain ⟨A, hA⟩ := hv i
    rw [h] at hA
    simp at hA
  · intro i j h
    obtain ⟨A, hA⟩ := hv i
    obtain ⟨B, hB⟩ := hv j
    rw [h, hB] at hA
    rw [← List.append_assoc, ← List.append_assoc] at hA
    exact toString_nat_injective i j
      (String.ext (after_last_hyphen _ _ (repr_ne_hyphen i) (repr_ne_hyphen j) _ _ hA.symm))

/-- The target path of the planned action at index `i`. -/
theorem planActions_fullPath_of_getElem? {σ : Type} (s : stepCreateDisk) (state : StateBag σ)
    (w : World σ) (i : Nat) (a : ActionDisk σ) (h : (s.planActions state w).1[i]? = some a) :
    a.Disk.FullPath = s.get_target_path s.VMName i := by
  have h1 := planActions_getElem? s state w i
  rw [h] at h1
  split at h1
  · simpa using h1
  · simp at h1

/-- C19: in every run, whatever `VMName`, `OutputDir`, the source disks and the additional
disks are, the `FullPath` of every planned action is not empty, and the planned actions at
two different positions of the plan have different `FullPath`s: the list of the planned
paths has no duplicate. -/
theorem run_target_paths_distinct {σ : Type} (s : stepCreateDisk) (state : StateBag σ)
    (w : World σ) :
    (∀ a ∈ (s.planActions state w).1, a.Disk.FullPath ≠ "") ∧
      (∀ (i j : Nat) (a b : ActionDisk σ), (s.planActions state w).1[i]? = some a →
        (s.planActions state w).1[j]? = some b → i ≠ j → a.Disk.FullPath ≠ b.Disk.FullPath) ∧
      ((s.planActions state w).1.map (fun a => a.Disk.FullPath)).Nodup := by
  have hinj := get_target_path_injective s s.VMName
  refine ⟨?_, ?_, ?_⟩
  · intro a ha
    obtain ⟨i, hi⟩ := List.mem_iff_getElem?.1 ha
    rw [planActions_fullPath_of_getElem? s state w i a hi]
    exact hinj.1 i
  · intro i j a b hi hj hij hab
    rw [planActions_fullPath_of_getElem? s state w i a hi,
      planActions_fullPath_of_getElem? s state w j b hj] at hab
    exact hij (hinj.2 i j hab)
  · rw [planActions_map_fullPath]
    exact (List.nodup_range _).map (fun i j h => hinj.2 i j h)

/-- C19 on a machine name and an output directory that `filepath.Join` rewrites: the three
planned paths are `vm-0`, `vm-1`, `vm-2` under `/out`, none empty and no two equal. -/
theorem run_target_paths_distinct_witness :
    (cleanedStep.planActions (okState "source.qcow2") okWorld).1.map
        (fun a => a.Disk.FullPath) = ["/out/vm-0", "/out/vm-1", "/out/vm-2"] ∧
      ∃ a b, (cleanedStep.planActions (okState "source.qcow2") okWorld).1[0]? = some a ∧
        (cleanedStep.planActions (okState "source.qcow2") okWorld).1[2]? = some b ∧
        a.Disk.FullPath ≠ "" ∧ a.Disk.FullPath ≠ b.Disk.FullPath := by
  refine ⟨by decide, ?_⟩
  have h0 : ((cleanedStep.planActions (okState "source.qcow2") okWorld).1[0]?).isSome = true := by
    decide
  have h2 : ((cleanedStep.planActions (okState "source.qcow2") okWorld).1[2]?).isSome = true := by
    decide
  obtain ⟨a, ha⟩ := Option.isSome_iff_exists.1 h0
  obtain ⟨b, hb⟩ := Option.isSome_iff_exists.1 h2
  have h := run_target_paths_distinct cleanedStep (okState "source.qcow2") okWorld
  exact ⟨a, b, ha, hb, h.1 a (List.mem_iff_getElem?.2 ⟨0, ha⟩), h.2.1 0 2 a b ha hb (by decide)⟩

/-! ## The empty plan, the known action types, the size of a resize -/

/-- C21: when there is no source disk, which happens in many-disks mode with an empty
`DisksOrder` and only then, and `AdditionalDiskSize` is empty, the plan is empty: `Run`
returns `ActionContinue`, puts the empty list under `qemu_disk_paths`, changes nothing else
in the state bag, and makes no driver call. -/
theorem run_empty_plan {σ : Type} (s : stepCreateDisk) (state : StateBag σ) (w : World σ)
    (hsrc : s.disksOrder state.iso_path = []) (hadd : s.AdditionalDiskSize = []) :
    (s.ManyDisks = true ∧ s.DisksOrder = []) ∧
      (s.planActions state w).1 = [] ∧
      (s.Run state w).1 = StepAction.ActionContinue ∧
      (s.Run state w).2.1 = { state with qemu_disk_paths := some [] } ∧
      (s.Run state w).2.2.calls = w.calls ∧
      (s.Run state w).2.2.driverState = w.driverState := by
  have hplan : (s.planActions state w).1 = [] := by
    apply List.length_eq_zero.1
    rw [planActions_length, hsrc, hadd]
    rfl
  have hw := planActions_world s state w
  have hmany : s.ManyDisks = true ∧ s.DisksOrder = [] := by
    unfold stepCreateDisk.disksOrder at hsrc
    split at hsrc
    · rename_i h
      exact ⟨h, hsrc⟩
    · simp at hsrc
  refine ⟨hmany, hplan, ?_, ?_, ?_, ?_⟩ <;>
    simp only [stepCreateDisk.Run, hplan, stepCreateDisk.createLoop, hw.1, hw.2]

/-- C21 on a step in many-disks mode without disks, over a driver that would fail its
first call: the run continues, publishes the empty list and records no call. -/
theorem run_empty_plan_witness :
    emptyStep.disksOrder (failState 0 "output_archive").iso_path = [] ∧
      emptyStep.AdditionalDiskSize = [] ∧
      (emptyStep.Run (failState 0 "output_archive") failWorld).1 = StepAction.ActionContinue ∧
      (emptyStep.Run (failState 0 "output_archive") failWorld).2.1.qemu_disk_paths = some [] ∧
      (emptyStep.Run (failState 0 "output_archive") failWorld).2.1.error = none ∧
      (emptyStep.Run (failState 0 "output_archive") failWorld).2.2.calls = [] :=
  ⟨by decide, by decide,
    (run_empty_plan emptyStep (failState 0 "output_archive") failWorld (by decide)
      (by decide)).2.2.1,
    by rw [(run_empty_plan emptyStep (failState 0 "output_archive") failWorld (by decide)
      (by decide)).2.2.2.1],
    by rw [(run_empty_plan emptyStep (failState 0 "output_archive") failWorld (by decide)
      (by decide)).2.2.2.1]; rfl,
    (run_empty_plan emptyStep (failState 0 "output_archive") failWorld (by decide)
      (by decide)).2.2.2.2.1⟩

/-- An action that makes a driver call has one of the four known types. -/
theorem actionType_of_driverCall {σ : Type} (a : ActionDisk σ) (c : DriverCall)
    (h : a.driverCall = some c) :
    a.ActionType = "create" ∨ a.ActionType = "convert" ∨ a.ActionType = "backing" ∨
      a.ActionType = "copy" := by
  unfold ActionDisk.driverCall at h
  by_cases h1 : a.ActionType = "copy"
  · exact Or.inr (Or.inr (Or.inr h1))
  · by_cases h2 : a.ActionType = "create"
    · exact Or.inl h2
    · by_cases h3 : a.ActionType = "convert"
      · exact Or.inr (Or.inl h3)
      · by_cases h4 : a.ActionType = "backing"
        · exact Or.inr (Or.inr (Or.inl h4))
        · simp [h1, h2, h3, h4] at h

/-- A list of results holds no error, or has a first error. -/
theorem first_failure_or_none (l : List GoError) :
    (∀ r ∈ l, r = none) ∨
      ∃ (k : Nat) (e : String), l.take (k + 1) = List.replicate k none ++ [some e] := by
  induction l with
  | nil => exact Or.inl (by simp)
  | cons r l ih =>
    cases r with
    | some e => exact Or.inr ⟨0, e, by simp⟩
    | none =>
      rcases ih with h | ⟨k, e, h⟩
      · left
        intro r hr
        rcases List.mem_cons.1 hr with rfl | hr
        · rfl
        · exact h r hr
      · exact Or.inr ⟨k + 1, e, by simp [List.take_succ_cons, List.replicate_succ, h]⟩

/-- The result at the position of the first error is that error. -/
theorem first_failure_getElem? (l : List GoError) (k : Nat) (e : String)
    (h : l.take (k + 1) = List.replicate k none ++ [some e]) : l[k]? = some (some e) := by
  have h1 : (l.take (k + 1))[k]? = l[k]? := by
    rw [List.getElem?_take, if_pos (Nat.lt_succ_self k)]
  rw [← h1, h, List.getElem?_append_right (by simp)]
  simp

/-- C22: every planned action has one of the types `create`, `convert`, `backing`, `copy`,
so `RunCommand` on a planned action is always one driver call and never the
`unknown action` branch; and a run either continues with `error` left as it was or halts
with the error text that one of the planned driver calls returned. -/
theorem run_no_unknown_action {σ : Type} (s : stepCreateDisk) (state : StateBag σ)
    (w : World σ) :
    (∀ a ∈ (s.planActions state w).1,
      (a.ActionType = "create" ∨ a.ActionType = "convert" ∨ a.ActionType = "backing" ∨
        a.ActionType = "copy") ∧
      ∃ c, a.driverCall = some c ∧
        ∀ w1 : World σ,
          a.RunCommand w1 =
            ((state.driver.issue c w1.driverState).1,
              { w1 with
                driverState := (state.driver.issue c w1.driverState).2
                calls := w1.calls ++ [c] })) ∧
      (((s.Run state w).1 = StepAction.ActionContinue ∧ (s.Run state w).2.1.error = state.error) ∨
        ∃ (k : Nat) (e : String),
          (state.driver.results (s.planCalls state w) w.driverState)[k]? = some (some e) ∧
            (s.Run state w).1 = StepAction.ActionHalt ∧
            (s.Run state w).2.1.error = some ("error creating hard drive: " ++ e)) := by
  constructor
  · intro a ha
    obtain ⟨hd, c, hc⟩ := planActions_driver s state w a ha
    refine ⟨actionType_of_driverCall a c hc, c, hc, fun w1 => ?_⟩
    rw [runCommand_of_driverCall a w1 c hc, hd]
  · rcases first_failure_or_none (state.driver.results (s.planCalls state w) w.driverState)
      with h | ⟨k, e, h⟩
    · have hr := run_continue s state w h
      exact Or.inl ⟨hr.1, by rw [hr.2.1]⟩
    · have hr := run_halt s state w k e h
      exact Or.inr ⟨k, e, first_failure_getElem? _ k e h, hr.1, by rw [hr.2.1]⟩

/-- C22 on the ninth and third cases of the test table: the planned types are known ones,
and the error of a halting run is the text of the failing driver call. -/
theorem run_no_unknown_action_witness :
    (manyDisksStep.planActions (okState "output_archive") okWorld).1.map
        (fun a => a.ActionType) = ["convert", "convert", "convert", "create", "create"] ∧
      (∃ a, (imageStep.planActions (failState 1 "source.qcow2") failWorld).1[0]? = some a ∧
        (a.ActionType = "create" ∨ a.ActionType = "convert" ∨ a.ActionType = "backing" ∨
          a.ActionType = "copy") ∧
        (a.RunCommand failWorld).2.calls ≠ failWorld.calls) ∧
      (failAt 1).results (imageStep.planCalls (failState 1 "source.qcow2") failWorld) 0 =
        [none, some "boom", none] ∧
      (imageStep.Run (failState 1 "source.qcow2") failWorld).2.1.error =
        some "error creating hard drive: boom" := by
  refine ⟨by decide, ?_, by decide, by decide⟩
  have h0 : ((imageStep.planActions (failState 1 "source.qcow2") failWorld).1[0]?).isSome =
      true := by decide
  obtain ⟨a, ha⟩ := Option.isSome_iff_exists.1 h0
  obtain ⟨hty, c, _, hrun⟩ :=
    (run_no_unknown_action imageStep (failState 1 "source.qcow2") failWorld).1 a
      (List.mem_iff_getElem?.2 ⟨0, ha⟩)
  refine ⟨a, ha, hty, ?_⟩
  rw [hrun failWorld]
  intro h
  have := congrArg List.length h
  simp at this

/-- The last token of a resize command is the `DiskSize` of the step. -/
theorem buildResizeCommand_getLast? (s : stepResizeDisk) (p : String) :
    (s.buildResizeCommand p).getLast? = some s.DiskSize := by
  have h : s.buildResizeCommand p =
      (["resize", "-f", s.Format] ++ s.QemuImgArgs.Resize ++ [p]) ++ [s.DiskSize] := by
    simp [stepResizeDisk.buildResizeCommand]
  rw [h, List.getLast?_append]
  rfl

/-- C23: in a run of `stepResizeDisk` that is not skipped, the driver calls made are resize
commands for the first paths of the list, in order, each built from the path and from the
step's `Format`, `Resize` arguments and `DiskSize` alone: the last token of every one is the
same `DiskSize`, whatever the path and its position are and however the disk at that path
was created. -/
theorem resize_same_size {σ : Type} (s : stepResizeDisk) (state : StateBag σ) (w : World σ)
    (paths : List String) (hpaths : state.qemu_disk_paths = some paths)
    (hImage : s.DiskImage = true) (hSkip : s.SkipResizeDisk = false) :
    ∃ r, s.Run state w = some r ∧
      (∃ m, r.2.2.calls = w.calls ++ (paths.take m).map (fun p =>
        DriverCall.QemuImg
          (["resize", "-f", s.Format] ++ s.QemuImgArgs.Resize ++ [p, s.DiskSize]))) ∧
      (∀ c ∈ r.2.2.calls.drop w.calls.length, ∃ p ∈ paths,
        c = DriverCall.QemuImg (s.buildResizeCommand p) ∧
          (s.buildResizeCommand p).getLast? = some s.DiskSize) := by
  have hrun : s.Run state w = some (s.resizeLoop state.driver paths state w) := by
    simp [stepResizeDisk.Run, hpaths, hImage, hSkip]
  have hm : ∃ m, (s.resizeLoop state.driver paths state w).2.2.calls =
      w.calls ++ (paths.take m).map (fun p => DriverCall.QemuImg (s.buildResizeCommand p)) := by
    rcases first_failure_or_none (state.driver.results (s.resizeCalls paths) w.driverState)
      with h | ⟨k, e, h⟩
    · refine ⟨paths.length, ?_⟩
      rw [(resizeLoop_continue s state.driver paths state w h).2.2, List.take_length]
      rfl
    · refine ⟨k + 1, ?_⟩
      rw [(resizeLoop_halt s state.driver e paths k state w h).2.2, stepResizeDisk.resizeCalls,
        List.map_take]
  obtain ⟨m, hm⟩ := hm
  refine ⟨_, hrun, ⟨m, hm⟩, ?_⟩
  intro c hc
  rw [hm, List.drop_left] at hc
  obtain ⟨p, hp, rfl⟩ := List.mem_map.1 hc
  exact ⟨p, List.mem_of_mem_take hp, rfl, buildResizeCommand_getLast? s p⟩

/-- C23 on the third case of the test table followed by a resize: the disk that was copied
and the two additional disks created with `3M` and `8M` are all resized to `10G`. -/
theorem resize_same_size_witness :
    (imageStep.Run (okState "source.qcow2") okWorld).2.1.qemu_disk_paths =
        some ["target-0", "target-1", "target-2"] ∧
      (imageStep.Run (okState "source.qcow2") okWorld).2.2.calls =
        [DriverCall.Copy "source.qcow2" "target-0",
          DriverCall.QemuImg ["create", "-f", "qcow2", "target-1", "3M"],
          DriverCall.QemuImg ["create", "-f", "qcow2", "target-2", "8M"]] ∧
      ∃ r,
        resizeStep.Run (imageStep.Run (okState "source.qcow2") okWorld).2.1 okWorld = some r ∧
          r.2.2.calls =
            [DriverCall.QemuImg ["resize", "-f", "qcow2", "-foo", "target-0", "10G"],
              DriverCall.QemuImg ["resize", "-f", "qcow2", "-foo", "target-1", "10G"],
              DriverCall.QemuImg ["resize", "-f", "qcow2", "-foo", "target-2", "10G"]] ∧
          ∀ c ∈ r.2.2.calls.drop okWorld.calls.length,
            ∃ p ∈ ["target-0", "target-1", "target-2"],
              c = DriverCall.QemuImg (resizeStep.buildResizeCommand p) ∧
                (resizeStep.buildResizeCommand p).getLast? = some resizeStep.DiskSize := by
  refine ⟨by decide, by decide, ?_⟩
  obtain ⟨r, hr, _, hall⟩ := resize_same_size resizeStep
    (imageStep.Run (okState "source.qcow2") okWorld).2.1 okWorld
    ["target-0", "target-1", "target-2"] (by decide) (by decide) (by decide)
  refine ⟨r, hr, ?_, hall⟩
  have h2 : (resizeStep.Run (imageStep.Run (okState "source.qcow2") okWorld).2.1 okWorld).map
      (fun r => r.2.2.calls) =
      some [DriverCall.QemuImg ["resize", "-f", "qcow2", "-foo", "target-0", "10G"],
        DriverCall.QemuImg ["resize", "-f", "qcow2", "-foo", "target-1", "10G"],
        DriverCall.QemuImg ["resize", "-f", "qcow2", "-foo", "target-2", "10G"]] := by
    decide
  rw [hr] at h2
  simpa using h2

end Qemu
